import Mathlib

/-!
Verification of the resampling and merge/dedup engine of the SQL_port
repository (Flask + MySQL).  The authoritative code is:

  * src/app/routes/resample.py  — SQL-based bucketing and aggregation,
    and the /api/resample route;
  * src/app/routes/merge.py     — CSV merge with key canonicalization and
    duplicate partitioning, and the /merge_data route;
  * src/app/services/database.py — table creation helpers and BASE_TABLES.

Shallow embedding conventions:

  * MySQL DATETIME values are modelled as `DT`: a calendar day index `day`
    plus the time of day in seconds `secs` (an `Int`; valid values satisfy
    `0 ≤ secs < 86400`).  All SQL date functions used by the code
    (`DATE`, `TIME`, `TIMESTAMPDIFF(MINUTE, …)`, `DATE_ADD(… MINUTE)`)
    act within these two components and are modelled directly.
  * MySQL DECIMAL(10,4) column values are modelled as `Int` in units of
    1/10000 (the exact scaled integer the server stores).
  * Python strings are modelled as `List Char` (`PyStr`).
  * MySQL `TIMESTAMPDIFF` truncates toward zero (`Int.tdiv`); `FLOOR` of
    an exact decimal division is `Int.fdiv`.
-/

namespace SQLPort

/-- A MySQL DATETIME: day index plus seconds-of-day.
`DATE(ts)` is the `day` component, `TIME(ts)` the `secs` component. -/
structure DT where
  day  : Nat
  secs : Int
  deriving DecidableEq, Repr

/-- `ts` is a valid DATETIME (time-of-day in range). -/
def DT.valid (t : DT) : Prop := 0 ≤ t.secs ∧ t.secs < 86400

/-- Chronological order on DATETIME values. -/
def dtLe (a b : DT) : Prop := a.day < b.day ∨ (a.day = b.day ∧ a.secs ≤ b.secs)

def dtLt (a b : DT) : Prop := a.day < b.day ∨ (a.day = b.day ∧ a.secs < b.secs)

instance : DecidablePred fun p : DT × DT => dtLe p.1 p.2 := fun _ => by
  unfold dtLe; infer_instance

instance (a b : DT) : Decidable (dtLe a b) := by unfold dtLe; infer_instance
instance (a b : DT) : Decidable (dtLt a b) := by unfold dtLt; infer_instance

/-- Boolean form of `dtLe`, used as the `ORDER BY Timestamp` comparator. -/
def dtLeB (a b : DT) : Bool := decide (dtLe a b)

/-- 09:30:00 as seconds-of-day: the session start used in
`CONCAT(DATE(Timestamp), ' 09:30:00')` (resample.py lines 47 and 129). -/
def sessionStartSecs : Int := 34200

/-- 15:59:00 as seconds-of-day: the upper bound of
`TIME(Timestamp) BETWEEN '09:30:00' AND '15:59:00'`. -/
def sessionEndSecs : Int := 57540

/-- The session-window test of the SQL WHERE clause
(resample.py lines 52 and 145). -/
def inSession (t : DT) : Prop := sessionStartSecs ≤ t.secs ∧ t.secs ≤ sessionEndSecs

instance (t : DT) : Decidable (inSession t) := by
  unfold inSession; infer_instance

/-- `TIMESTAMPDIFF(MINUTE, CONCAT(DATE(Timestamp), ' 09:30:00'), Timestamp)`:
whole minutes between the same-day 09:30:00 anchor and the timestamp,
truncated toward zero (MySQL TIMESTAMPDIFF semantics). -/
def elapsedMinutes (t : DT) : Int := Int.tdiv (t.secs - sessionStartSecs) 60

/-- `FLOOR(TIMESTAMPDIFF(…) / tf)` (resample.py lines 44-50 and 130-136). -/
def bucketId (t : DT) (tf : Int) : Int := Int.fdiv (elapsedMinutes t) tf

/-- `DATE_ADD(CONCAT(DATE(Timestamp), ' 09:30:00'), INTERVAL bucket_id * tf
MINUTE)`: the candle bucket start assigned to a row
(resample.py lines 64-67 and 128-137).  For in-session timestamps the
result stays within the same day, so the `day` component is unchanged. -/
def candleTs (t : DT) (tf : Int) : DT :=
  ⟨t.day, sessionStartSecs + bucketId t tf * tf * 60⟩

/-! ## Source rows and the WHERE filter of the resample queries -/

/-- A row of a stock/VIX 1-minute source table (`Timestamp DATETIME,
Open/Close/High/Low DECIMAL(10,4) nullable, Volume BIGINT`); per the data
model, `Volume` is an integer (≥ 0) and is not filtered on nullity. -/
structure SRow where
  Timestamp : DT
  Open   : Option Int
  Close  : Option Int
  High   : Option Int
  Low    : Option Int
  Volume : Int
  deriving DecidableEq, Repr

/-- A row of an option 1-minute source table: the stock fields plus the
option identity fields (database.py lines 104-117). -/
structure ORow where
  StrikePrice  : Int
  ContractType : List Char
  ExpiryDate   : DT
  Timestamp    : DT
  Open   : Option Int
  Close  : Option Int
  High   : Option Int
  Low    : Option Int
  Volume : Int
  deriving DecidableEq, Repr

/-- A row that survived the WHERE clause: in-session and with all four of
Open/Close/High/Low non-NULL, so those fields are now plain values.
This is the row shape flowing out of the `base`/`bucketed` CTE stage. -/
structure CSRow where
  Timestamp : DT
  Open   : Int
  Close  : Int
  High   : Int
  Low    : Int
  Volume : Int
  deriving DecidableEq, Repr

structure CORow where
  StrikePrice  : Int
  ContractType : List Char
  ExpiryDate   : DT
  Timestamp    : DT
  Open   : Int
  Close  : Int
  High   : Int
  Low    : Int
  Volume : Int
  deriving DecidableEq, Repr

/-- The WHERE clause of `execute_resample_stock` (resample.py lines
145-149): `TIME(Timestamp) BETWEEN '09:30:00' AND '15:59:00' AND Open IS
NOT NULL AND … AND Low IS NOT NULL`.  Returns the narrowed row when the
row passes, `none` when it is filtered out. -/
def cleanS (r : SRow) : Option CSRow :=
  if inSession r.Timestamp then
    match r.Open, r.Close, r.High, r.Low with
    | some o, some c, some h, some l =>
        some ⟨r.Timestamp, o, c, h, l, r.Volume⟩
    | _, _, _, _ => none
  else none

/-- The WHERE clause of `execute_resample_option` (resample.py lines
52-56), textually identical to the stock one. -/
def cleanO (r : ORow) : Option CORow :=
  if inSession r.Timestamp then
    match r.Open, r.Close, r.High, r.Low with
    | some o, some c, some h, some l =>
        some ⟨r.StrikePrice, r.ContractType, r.ExpiryDate, r.Timestamp,
              o, c, h, l, r.Volume⟩
    | _, _, _, _ => none
  else none

/-! ## SQL aggregate functions over a bucket group

`GROUP_CONCAT(v ORDER BY Timestamp)` produces the values of the group in
ascending timestamp order, separated by `','`; DECIMAL text contains no
comma, so `SUBSTRING_INDEX(…, ',', 1)` recovers exactly the first value
of that ordered sequence.  We therefore model this pair of functions as:
sort the group rows by timestamp and take the head's value. -/

/-- Sorted insertion of one element (helper of `sortByB`). -/
def insertSorted {α : Type} (le : α → α → Bool) (x : α) : List α → List α
  | [] => [x]
  | y :: ys => if le x y then x :: y :: ys else y :: insertSorted le x ys

/-- Insertion sort under a Boolean comparator: the model of SQL
`ORDER BY` (any sorting of the group; MySQL leaves the relative order of
ties unspecified, and every property we prove assumes distinct sort
keys). -/
def sortByB {α : Type} (le : α → α → Bool) : List α → List α
  | [] => []
  | x :: xs => insertSorted le x (sortByB le xs)

/-- The group rows in `ORDER BY Timestamp` (ascending) order. -/
def orderByTsAsc {α : Type} (ts : α → DT) (g : List α) : List α :=
  sortByB (fun a b => dtLeB (ts a) (ts b)) g

/-- The group rows in `ORDER BY Timestamp DESC` order. -/
def orderByTsDesc {α : Type} (ts : α → DT) (g : List α) : List α :=
  sortByB (fun a b => dtLeB (ts b) (ts a)) g

/-- `SUBSTRING_INDEX(GROUP_CONCAT(val ORDER BY Timestamp), ',', 1)`. -/
def gcFirstAsc {α : Type} (ts : α → DT) (val : α → Int) (g : List α) :
    Option Int :=
  ((orderByTsAsc ts g).head?).map val

/-- `SUBSTRING_INDEX(GROUP_CONCAT(val ORDER BY Timestamp DESC), ',', 1)`. -/
def gcFirstDesc {α : Type} (ts : α → DT) (val : α → Int) (g : List α) :
    Option Int :=
  ((orderByTsDesc ts g).head?).map val

/-- SQL `MAX` over the group's values (NULL on an empty group). -/
def sqlMAX : List Int → Option Int
  | [] => none
  | v :: vs => some (vs.foldl max v)

/-- SQL `MIN` over the group's values (NULL on an empty group). -/
def sqlMIN : List Int → Option Int
  | [] => none
  | v :: vs => some (vs.foldl min v)

/-- SQL `SUM` over the group's (non-NULL, BIGINT) values. -/
def sqlSUM (xs : List Int) : Int := xs.foldl (· + ·) 0

/-! ## The stock-path first/last trick

`execute_resample_stock` computes
`SUBSTRING_INDEX(MIN(CONCAT(DATE_FORMAT(orig_ts, '%Y%m%d%H%i%s'), '|',
Open)), '|', -1)` (resample.py lines 154-161).  The `DATE_FORMAT` output
is a fixed-width 14-digit decimal string that orders chronologically, so
comparing two concatenated strings first compares the two timestamps
numerically and, only when those 14 digits coincide, falls through to the
`'|' + value` suffix (both strings have `'|'` at the same position).  We
model the concatenated string order-isomorphically as the pair
`(dtCode ts, decimalText value)` under lexicographic order, where
`dtCode` is a strictly monotone fixed-width numeric stand-in for the
`%Y%m%d` rendering of the day combined with the `%H%i%s` rendering of
the time, and `decimalText` renders the DECIMAL(10,4) value the way the
server does.  `SUBSTRING_INDEX(…, '|', -1)` takes the text after the last
`'|'`; a DECIMAL text contains no `'|'`, so it recovers the value text,
and the surrounding `CAST(… AS DECIMAL(10,4))` parses that canonical text
back to the value itself. -/

/-- `%H%i%s` of a time-of-day, read as a number (fixed width 6). -/
def hmsCode (secs : Int) : Nat :=
  (secs.toNat / 3600) * 10000 + ((secs.toNat % 3600) / 60) * 100 +
    secs.toNat % 60

/-- `%Y%m%d%H%i%s` of a DATETIME, read as a number.  The `%Y%m%d` part is
a strictly monotone fixed-width function of the day; we use the
order-isomorphic stand-in `day + 10000000`. -/
def dtCode (t : DT) : Nat := (t.day + 10000000) * 1000000 + hmsCode t.secs

/-- The canonical text of a DECIMAL(10,4) value, e.g. `123.4500`. -/
def decimalText (v : Int) : List Char :=
  (if v < 0 then ['-'] else []) ++
    Nat.toDigits 10 (v.natAbs / 10000) ++
    '.' :: (Nat.toDigits 10 (10000 + v.natAbs % 10000)).drop 1

/-- Byte-wise (binary collation) strict order on strings. -/
def strLtB : List Char → List Char → Bool
  | [], [] => false
  | [], _ :: _ => true
  | _ :: _, [] => false
  | a :: as, b :: bs => if a = b then strLtB as bs else decide (a < b)

/-- Order of the `CONCAT(DATE_FORMAT(…), '|', value)` strings, modelled on
the pair (timestamp code, value text): fixed-width timestamp digits decide
first, the value text breaks ties. -/
def concatLtB (a b : Nat × List Char) : Bool :=
  decide (a.1 < b.1) || (decide (a.1 = b.1) && strLtB a.2 b.2)

/-- Binary minimum of two rows under the order of their
`CONCAT(DATE_FORMAT(ts), '|', value)` strings. -/
def concatMin2 {α : Type} (ts : α → DT) (val : α → Int) (m x : α) : α :=
  if concatLtB (dtCode (ts x), decimalText (val x))
               (dtCode (ts m), decimalText (val m))
  then x else m

/-- Binary maximum of two rows under the order of their
`CONCAT(DATE_FORMAT(ts), '|', value)` strings. -/
def concatMax2 {α : Type} (ts : α → DT) (val : α → Int) (m x : α) : α :=
  if concatLtB (dtCode (ts m), decimalText (val m))
               (dtCode (ts x), decimalText (val x))
  then x else m

/-- The row holding the minimal `CONCAT(DATE_FORMAT(ts), '|', value)`
string of the group (SQL `MIN` of a non-empty group is the least string;
NULL on an empty group). -/
def concatMinRow {α : Type} (ts : α → DT) (val : α → Int) :
    List α → Option α
  | [] => none
  | r :: rest => some (rest.foldl (concatMin2 ts val) r)

/-- The row holding the maximal `CONCAT(DATE_FORMAT(ts), '|', value)`
string of the group. -/
def concatMaxRow {α : Type} (ts : α → DT) (val : α → Int) :
    List α → Option α
  | [] => none
  | r :: rest => some (rest.foldl (concatMax2 ts val) r)

/-- SQL `MIN` over the concatenated strings, keeping the row value that the
final `SUBSTRING_INDEX(…, '|', -1)` + `CAST` recover. -/
def concatMinVal {α : Type} (ts : α → DT) (val : α → Int) (g : List α) :
    Option Int :=
  (concatMinRow ts val g).map val

/-- SQL `MAX` over the concatenated strings. -/
def concatMaxVal {α : Type} (ts : α → DT) (val : α → Int) (g : List α) :
    Option Int :=
  (concatMaxRow ts val g).map val

/-! ## The full resample pipelines (one destination-table rebuild) -/

/-- An output candle of a stock/VIX resampled table. -/
structure SCandle where
  Timestamp : DT
  Open   : Option Int
  Close  : Option Int
  High   : Option Int
  Low    : Option Int
  Volume : Int
  deriving DecidableEq, Repr

/-- An output candle of an option resampled table. -/
structure OCandle where
  StrikePrice  : Int
  ContractType : List Char
  ExpiryDate   : DT
  Timestamp    : DT
  Open   : Option Int
  Close  : Option Int
  High   : Option Int
  Low    : Option Int
  Volume : Int
  deriving DecidableEq, Repr

/-- The option GROUP BY key: `StrikePrice, ContractType, ExpiryDate,
candle_ts` (resample.py lines 94-98). -/
abbrev OKey := Int × List Char × DT × DT

def oKey (tf : Int) (r : CORow) : OKey :=
  (r.StrikePrice, r.ContractType, r.ExpiryDate, candleTs r.Timestamp tf)

/-- `ORDER BY StrikePrice, ContractType, ExpiryDate, candle_ts`. -/
def oKeyLeB (a b : OKey) : Bool :=
  decide (a.1 < b.1) ||
    (decide (a.1 = b.1) &&
      (strLtB a.2.1 b.2.1 ||
        (decide (a.2.1 = b.2.1) &&
          (decide (dtLt a.2.2.1 b.2.2.1) ||
            (decide (a.2.2.1 = b.2.2.1) && dtLeB a.2.2.2 b.2.2.2)))))

/-- The aggregation of one option bucket group (the SELECT list of
resample.py lines 77-92). -/
def optionAggregate (k : OKey) (g : List CORow) : OCandle :=
  { StrikePrice := k.1
  , ContractType := k.2.1
  , ExpiryDate := k.2.2.1
  , Timestamp := k.2.2.2
  , Open  := gcFirstAsc  (fun r => r.Timestamp) (fun r => r.Open) g
  , Close := gcFirstDesc (fun r => r.Timestamp) (fun r => r.Close) g
  , High  := sqlMAX (g.map (fun r => r.High))
  , Low   := sqlMIN (g.map (fun r => r.Low))
  , Volume := sqlSUM (g.map (fun r => r.Volume)) }

/-- The full option resample SELECT (resample.py lines 29-104): filter,
bucket, group by the option key, aggregate, order by the key. -/
def optionResample (src : List ORow) (tf : Int) : List OCandle :=
  let base := src.filterMap cleanO
  let keys := sortByB oKeyLeB ((base.map (oKey tf)).dedup)
  keys.map fun k => optionAggregate k (base.filter (fun r => decide (oKey tf r = k)))

/-- The aggregation of one stock bucket group (the SELECT list of
resample.py lines 152-164), using the MIN/MAX-on-concatenation trick for
Open/Close. -/
def stockAggregate (k : DT) (g : List CSRow) : SCandle :=
  { Timestamp := k
  , Open  := concatMinVal (fun r => r.Timestamp) (fun r => r.Open) g
  , Close := concatMaxVal (fun r => r.Timestamp) (fun r => r.Close) g
  , High  := sqlMAX (g.map (fun r => r.High))
  , Low   := sqlMIN (g.map (fun r => r.Low))
  , Volume := sqlSUM (g.map (fun r => r.Volume)) }

/-- The full stock/VIX resample SELECT (resample.py lines 122-168):
filter, bucket, group by `candle_ts`, aggregate, order by `candle_ts`. -/
def stockResample (src : List SRow) (tf : Int) : List SCandle :=
  let base := src.filterMap cleanS
  let keys := sortByB dtLeB ((base.map (fun r => candleTs r.Timestamp tf)).dedup)
  keys.map fun k =>
    stockAggregate k (base.filter (fun r => decide (candleTs r.Timestamp tf = k)))

/-! ## Python string primitives used by merge.py and resample.py

Python `str` values are embedded as `List Char`. -/

abbrev PyStr := List Char

/-- Python `s.replace(a, b)` for single-character `a`, `b`. -/
def pyReplaceChar (a b : Char) (s : PyStr) : PyStr :=
  s.map fun c => if c = a then b else c

/-- Python `s.split(sep)[0]` for a single-character separator: the prefix
before the first occurrence of `sep` (the whole string when absent). -/
def pySplitHead (sep : Char) (s : PyStr) : PyStr :=
  s.takeWhile (fun c => c ≠ sep)

/-- Python `s.strip()`: remove leading and trailing whitespace. -/
def pyStrip (s : PyStr) : PyStr :=
  ((s.dropWhile Char.isWhitespace).reverse.dropWhile Char.isWhitespace).reverse

/-- Python `s.lower()` (ASCII inputs). -/
def pyLower (s : PyStr) : PyStr := s.map Char.toLower

/-- Python `s.split(sep)` for a single-character separator. -/
def pySplit (sep : Char) : PyStr → List PyStr
  | [] => [[]]
  | c :: rest =>
    match pySplit sep rest with
    | [] => [[c]]
    | g :: gs => if c = sep then [] :: g :: gs else (c :: g) :: gs

/-- Python `pat in s` (substring containment). -/
def pyContains (pat : PyStr) : PyStr → Bool
  | [] => pat.isEmpty
  | c :: rest => pat.isPrefixOf (c :: rest) || pyContains pat rest

/-- Worker of `pyReplaceStr`, structurally recursive on a fuel counter
that dominates the remaining string length (each step consumes at least
one character when the pattern is non-empty). -/
def pyReplaceStrGo (pat rep : PyStr) : Nat → PyStr → PyStr
  | _, [] => []
  | 0, s => s
  | Nat.succ n, c :: rest =>
    if !pat.isEmpty && pat.isPrefixOf (c :: rest) then
      rep ++ pyReplaceStrGo pat rep n ((c :: rest).drop pat.length)
    else
      c :: pyReplaceStrGo pat rep n rest

/-- Python `s.replace(pat, rep)` for a non-empty string pattern:
left-to-right, non-overlapping. -/
def pyReplaceStr (pat rep : PyStr) (s : PyStr) : PyStr :=
  pyReplaceStrGo pat rep s.length s

/-! ## Key canonicalization of merge.py (`normalize_dt`, lines 163-172)

The code path for textual CSV values is the string branch:
`str(val).replace('T', ' ').split('.')[0].split('+')[0]` followed by
`.strip()`.  (`None` maps to the empty string; the `strftime` branch for
values that are already datetime objects renders
`'%Y-%m-%d %H:%M:%S'`, the canonical form the string branch targets.) -/

def normalize_dt : Option PyStr → PyStr
  | none => []
  | some s => pyStrip (pySplitHead '+' (pySplitHead '.' (pyReplaceChar 'T' ' ' s)))

/-- A CSV row of an option merge batch, with the textual key fields as
pandas delivers them (merge.py reads them from the uploaded CSVs). -/
structure MRow where
  StrikePrice  : Int
  ContractType : PyStr
  ExpiryDate   : PyStr
  Timestamp    : PyStr
  deriving DecidableEq, Repr

/-- The canonical option identity key of merge.py lines 203-208:
`(int(StrikePrice), str(ContractType).strip(), normalize_dt(ExpiryDate),
normalize_dt(Timestamp))`. -/
abbrev MKey := Int × PyStr × PyStr × PyStr

def rowKey (r : MRow) : MKey :=
  (r.StrikePrice, pyStrip r.ContractType,
   normalize_dt (some r.ExpiryDate), normalize_dt (some r.Timestamp))

/-- The raw key-column tuple of a CSV row, exactly as the DataFrame holds
it.  `merged_data.drop_duplicates(subset=key_cols)` (merge.py lines
143-150) compares these RAW column values — canonicalization
(`int`/`strip`/`normalize_dt`) is applied only later, inside `row_exists`
(merge.py lines 199-209). -/
def rawKey (r : MRow) : MKey :=
  (r.StrikePrice, r.ContractType, r.ExpiryDate, r.Timestamp)

/-! ## Intra-batch deduplication and existing-key partitioning
(merge.py lines 143-150 and 195-252) -/

/-- pandas `drop_duplicates(subset=key_cols)` with the default
`keep='first'`: scan in order, keep a row iff its key was not seen yet. -/
def dedupFirstAux (k : MRow → MKey) (seen : List MKey) :
    List MRow → List MRow
  | [] => []
  | r :: rest =>
    if k r ∈ seen then dedupFirstAux k seen rest
    else r :: dedupFirstAux k (k r :: seen) rest

def drop_duplicates (k : MRow → MKey) (rows : List MRow) : List MRow :=
  dedupFirstAux k [] rows

/-- `csv_dupes_count = len(merged_data) - len(merged_data.drop_duplicates(…))`
(merge.py line 149). -/
def csvDupesCount (k : MRow → MKey) (rows : List MRow) : Nat :=
  rows.length - (drop_duplicates k rows).length

/-- `duplicate_rows = merged_data[mask]` where `mask = row_exists`
(merge.py lines 227-228), applied to the already-deduplicated batch. -/
def duplicateRows (k : MRow → MKey) (existing : List MKey)
    (dd : List MRow) : List MRow :=
  dd.filter fun r => decide (k r ∈ existing)

/-- `new_data = merged_data[~mask]` (merge.py line 239). -/
def newRows (k : MRow → MKey) (existing : List MKey)
    (dd : List MRow) : List MRow :=
  dd.filter fun r => !decide (k r ∈ existing)

/-- The counters reported by one successful merge invocation
(merge.py lines 240-252 and 279-284). -/
structure MergeCounts where
  rows_inserted      : Nat
  duplicates_skipped : Nat
  csv_dupes          : Nat
  deriving DecidableEq, Repr

/-- The `except` branch of merge.py lines 254-255: any exception raised
by the database work — in particular the IntegrityError of a bulk
`to_sql` append that violates the destination's primary key — is caught
and returned as a `Database error` 500. -/
inductive DbFailure
  | databaseError
  deriving DecidableEq, Repr

/-- The key-column tuple a row occupies in the destination table once
MySQL has parsed its DATETIME texts.  `rt` abstracts the store's
re-rendering of a raw datetime text: parse to DATETIME, then re-render at
seconds precision — the text `normalize_dt`'s `strftime` branch produces
when the value is read back.  The primary key
`(StrikePrice, ContractType, ExpiryDate, Timestamp)`
(database.py line 115) compares these stored tuples. -/
def storedTuple (rt : PyStr → PyStr) (r : MRow) : MKey :=
  (r.StrikePrice, r.ContractType, rt r.ExpiryDate, rt r.Timestamp)

/-- The canonical key the NEXT merge computes from a stored row when it
re-reads the existing-key set (merge.py lines 174-187): `int` on the
stored strike, `strip` on the stored contract-type text, and
`normalize_dt`'s `strftime` branch — i.e. `rt` — on the stored DATETIME
values. -/
def storedKey (rt : PyStr → PyStr) (r : MRow) : MKey :=
  (r.StrikePrice, pyStrip r.ContractType, rt r.ExpiryDate, rt r.Timestamp)

/-- The MySQL DATETIME re-read of the two datetime texts appearing in the
round-trip counterexample: a bare date is stored as midnight and
re-renders with the zero time (documented DATETIME behaviour), while a
text already in `%Y-%m-%d %H:%M:%S` form re-reads unchanged. -/
def bareDateReRead (s : PyStr) : PyStr :=
  if s = "2026-01-16".toList then "2026-01-16 00:00:00".toList else s

/-- One full merge invocation against an option destination table holding
`stored` rows (merge.py lines 143-255): read the existing-key set from
the stored rows, dedup the batch on RAW key columns (line 150), partition
with the canonicalized `row_exists` key (lines 199-239), then bulk-append
the new rows — which MySQL rejects wholesale when an appended row's
stored tuple collides with an existing row or with another appended row
(primary key), surfacing as the `Database error` branch. -/
def mergeRun (rt : PyStr → PyStr) (stored : List MRow)
    (incoming : List MRow) : Except DbFailure (MergeCounts × List MRow) :=
  let existing := stored.map (storedKey rt)
  let dd := drop_duplicates rawKey incoming
  let newD := newRows rowKey existing dd
  if newD.any (fun r => decide (storedTuple rt r ∈ stored.map (storedTuple rt)))
      || !decide ((newD.map (storedTuple rt)).Nodup) then
    .error .databaseError
  else
    .ok ({ rows_inserted := newD.length
         , duplicates_skipped := dd.length - newD.length
         , csv_dupes := incoming.length - dd.length }, stored ++ newD)

/-! ## `parse_filename` (merge.py lines 22-49)

Option pattern:
`.*_(?P<symbol>[a-zA-Z]+)_(?P<type>call|put)_(?P<tf>\d+\s*min)_.*\.csv$`,
matched against `filename.lower()`.  Stock pattern:
`.*_(?P<symbol>[a-zA-Z]+)_(?P<tf>\d+\s*min)\.csv$`.

None of the group sub-patterns can contain `'_'` (letters; `call`/`put`;
digits, whitespace, `min`), while the surrounding `.*` parts can, so a
match is determined by the `'_'`-separated tokens of the filename: the
option pattern matches iff some token index `i ≥ 1` has an alphabetic
token at `i`, `call`/`put` at `i+1`, a `\d+\s*min` token at `i+2` with at
least one further token after it, and the whole name ends in `.csv`.
Because the leading `.*` is greedy, the regex engine commits to the
largest such `i`. -/

structure ParsedName where
  symbol : PyStr
  ftype  : PyStr
  tf     : PyStr
  deriving DecidableEq, Repr

/-- `[a-zA-Z]+` (after lowering). -/
def isAlphaRun (s : PyStr) : Bool := !s.isEmpty && s.all Char.isAlpha

/-- `\d+\s*min`. -/
def isTfRun (s : PyStr) : Bool :=
  let ds := s.takeWhile Char.isDigit
  !ds.isEmpty &&
    decide ((s.drop ds.length).dropWhile Char.isWhitespace = "min".toList)

/-- `\d+\s*min\.csv` — the final token of the stock pattern. -/
def isTfCsvRun (s : PyStr) : Bool :=
  let ds := s.takeWhile Char.isDigit
  !ds.isEmpty &&
    decide ((s.drop ds.length).dropWhile Char.isWhitespace = "min.csv".toList)

/-- The option pattern matches with the symbol group at token `i`. -/
def optionMatchAt (low : PyStr) (toks : List PyStr) (i : Nat) : Bool :=
  decide (1 ≤ i) && decide (i + 4 ≤ toks.length) &&
    isAlphaRun (toks.getD i []) &&
    (decide (toks.getD (i+1) [] = "call".toList) ||
      decide (toks.getD (i+1) [] = "put".toList)) &&
    isTfRun (toks.getD (i+2) []) &&
    List.isSuffixOf (".csv".toList) low

/-- `result['tf'].replace(' ', '')` (merge.py lines 37 and 46). -/
def normalizeTf (s : PyStr) : PyStr := s.filter (fun c => c ≠ ' ')

def parse_filename (filename : PyStr) : Option ParsedName :=
  let low := pyLower filename
  let toks := pySplit '_' low
  match ((List.range toks.length).filter (optionMatchAt low toks)).getLast? with
  | some i =>
      some ⟨toks.getD i [], toks.getD (i+1) [], normalizeTf (toks.getD (i+2) [])⟩
  | none =>
      -- stock pattern: the symbol token is forced to be the second-to-last
      -- token, followed by the `\d+\s*min\.csv` tail.
      let n := toks.length
      if decide (3 ≤ n) && isAlphaRun (toks.getD (n-2) []) &&
           isTfCsvRun (toks.getD (n-1) []) then
        let tail := toks.getD (n-1) []
        some ⟨toks.getD (n-2) [], "stock".toList,
              normalizeTf (tail.take (tail.length - 4))⟩
      else none

/-! ## The merge route's validation phase (merge.py lines 52-127)

The observable store state is the set of base tables existing in the
selected schema; `create_base_table` (database.py lines 84-125) issues
`CREATE TABLE IF NOT EXISTS`, i.e. adds the table when absent. -/

/-- `BASE_TABLES` (database.py lines 11-24). -/
def BASE_TABLES : List PyStr :=
  ["ib_2w_call_1min".toList, "ib_2w_put_1min".toList, "ib_stock_1min".toList]

def create_base_table (tables : List PyStr) (t : PyStr) : List PyStr :=
  if t ∈ tables then tables else tables ++ [t]

/-- The distinct rejection branches of the validation phase, in source
order. -/
inductive MergeReject
  | missingSchemaTable                       -- line 60
  | noFiles                                  -- line 62
  | invalidTable                             -- line 66
  | invalidFilename (f : PyStr)              -- line 77
  | symbolSchemaMismatch (f : PyStr)         -- line 85
  | optionFileForStockTable (f : PyStr)      -- line 94
  | vixFileForStockTable (f : PyStr)         -- line 99
  | optionFileForVixTable (f : PyStr)        -- line 106
  | nonVixFileForVixTable (f : PyStr)        -- line 111
  | stockFileForOptionTable (f : PyStr)      -- line 118
  | typeOrTfTableMismatch (f : PyStr)        -- line 124
  deriving DecidableEq, Repr

/-- The rejections produced by the per-file validation loop (as opposed to
the three request-level checks that precede `create_base_table`). -/
def fileLevelReject : MergeReject → Prop
  | .missingSchemaTable => False
  | .noFiles => False
  | .invalidTable => False
  | _ => True

instance (e : MergeReject) : Decidable (fileLevelReject e) := by
  cases e <;> first
    | exact isFalse (by intro hc; exact hc)
    | exact isTrue trivial

/-- Validation of one uploaded filename against the selected schema and
table (the body of the `for file in files` loop, merge.py lines 72-127);
empty filenames are skipped by the caller. -/
def validateFile (schema table : PyStr) (f : PyStr) :
    Option MergeReject :=
  match parse_filename f with
  | none => some (.invalidFilename f)
  | some p =>
    -- merge.py writes each guard as `if not cond: return <error>`; each
    -- negation is folded here into the else branch of a positive test.
    if List.isPrefixOf (p.symbol ++ ['_']) (pyLower schema) then
      if table = "ib_stock_1min".toList then
        if p.ftype = "stock".toList then
          if p.symbol = "vix".toList then some (.vixFileForStockTable f)
          else none
        else some (.optionFileForStockTable f)
      else if table = "ib_vix_1min".toList then
        if p.ftype = "stock".toList then
          if p.symbol = "vix".toList then none
          else some (.nonVixFileForVixTable f)
        else some (.optionFileForVixTable f)
      else
        if p.ftype = "stock".toList then some (.stockFileForOptionTable f)
        else if pyContains p.ftype (pyLower table) &&
                pyContains p.tf (pyLower table) then none
        else some (.typeOrTfTableMismatch f)
    else some (.symbolSchemaMismatch f)

/-- First failure among the non-empty filenames, scanning in order. -/
def validateFiles (schema table : PyStr) : List PyStr → Option MergeReject
  | [] => none
  | f :: rest =>
    if f = [] then validateFiles schema table rest
    else
      match validateFile schema table f with
      | some e => some e
      | none => validateFiles schema table rest

structure MergeRequest where
  schema : Option PyStr
  table  : Option PyStr
  files  : List PyStr
  deriving DecidableEq, Repr

/-- Python falsiness of an optional form field: absent or empty string. -/
def falsyStr : Option PyStr → Bool
  | none => true
  | some s => s.isEmpty

/-- The validation phase of `merge_option_data` (merge.py lines 54-127),
up to the point where CSV row processing would begin.  Returns the
outcome (`.ok` = proceed to row processing; `.error` = the 400 rejection
taken) together with the table set of the schema afterwards.  Note the
source order: `create_base_table` runs at line 69, before the filename
validation loop of lines 72-127. -/
def mergeValidatePhase (req : MergeRequest) (tables : List PyStr) :
    Except MergeReject Unit × List PyStr :=
  if falsyStr req.schema || falsyStr req.table then
    (.error .missingSchemaTable, tables)
  else
    match req.schema, req.table with
    | some schema, some table =>
      if req.files.isEmpty || req.files.all (fun f => f.isEmpty) then
        (.error .noFiles, tables)
      else if table ∉ BASE_TABLES then
        (.error .invalidTable, tables)
      else
        let tables' := create_base_table tables table
        match validateFiles schema table req.files with
        | some e => (.error e, tables')
        | none => (.ok (), tables')
    | _, _ => (.error .missingSchemaTable, tables)

/-! ## The `/api/resample` route (resample.py lines 200-250)

The route calls `create_resampled_table(schema, dest_table, table_type)`
with three arguments (line 223), while the function defined at
database.py line 128 takes exactly the two parameters
`(schema, dest_table)`.  Python raises `TypeError` for a call whose
argument list does not fit the parameter list, before the function body
runs; the route has no exception handler, so the error propagates out of
the whole request.  We embed the call with Python's call semantics: the
DB-touching bodies are abstract parameters (they perform I/O), and the
call helper dispatches on the argument list. -/

inductive PyErr
  | typeError
  deriving DecidableEq, Repr

/-- Calling the two-parameter `create_resampled_table` of database.py on
an argument list: the body runs only when exactly two arguments are
supplied; any other arity raises `TypeError`. -/
def create_resampled_table_call (body : PyStr → PyStr → Bool)
    (args : List PyStr) : Except PyErr Bool :=
  match args with
  | [schema, dest] => .ok (body schema dest)
  | _ => .error .typeError

/-- `TIMEFRAMES` (resample.py lines 16-21). -/
def TIMEFRAMES : List (PyStr × Int) :=
  [("3min".toList, 3), ("5min".toList, 5), ("15min".toList, 15),
   ("1hr".toList, 60)]

def lookupTf (name : PyStr) : Option Int :=
  (TIMEFRAMES.find? (fun p => decide (p.1 = name))).map (fun p => p.2)

/-- `get_table_type` (resample.py lines 179-185). -/
def get_table_type (src : PyStr) : PyStr :=
  if pyContains ("stock".toList) (pyLower src) then "stock".toList
  else if pyContains ("vix".toList) (pyLower src) then "vix".toList
  else "option".toList

/-- One entry of the per-timeframe `results` list. -/
structure TfResult where
  timeframe : PyStr
  success   : Bool
  table     : Option PyStr
  error     : Option PyStr
  deriving DecidableEq, Repr

def tfSuccessEntry (tf dest : PyStr) : TfResult :=
  ⟨tf, true, some dest, none⟩

def tfCreateFailEntry (tf : PyStr) : TfResult :=
  ⟨tf, false, none, some ("Failed to create destination table".toList)⟩

def tfExecFailEntry (tf : PyStr) : TfResult :=
  ⟨tf, false, none, some ("Failed to execute resampling".toList)⟩

/-- The `for tf_name in timeframes` loop of `api_resample` (resample.py
lines 216-248).  `body` is the body of the two-parameter
`create_resampled_table`; `execStock`/`execOption` are the bodies of
`execute_resample_stock`/`execute_resample_option` (all I/O, abstract
here).  An uncaught exception aborts the loop and the request. -/
def apiResampleLoop (body : PyStr → PyStr → Bool)
    (execStock execOption : PyStr → PyStr → PyStr → Int → Bool)
    (schema src ttype : PyStr) :
    List PyStr → List TfResult → Except PyErr (List TfResult)
  | [], acc => .ok acc
  | tfName :: rest, acc =>
    match lookupTf tfName with
    | none =>
        -- `if tf_name not in TIMEFRAMES: continue` (lines 217-218):
        -- the unsupported timeframe produces no result entry.
        apiResampleLoop body execStock execOption schema src ttype rest acc
    | some tfMinutes =>
        let dest := pyReplaceStr ("_1min".toList) ('_' :: tfName) src
        match create_resampled_table_call body [schema, dest, ttype] with
        | .error e => .error e
        | .ok false =>
            apiResampleLoop body execStock execOption schema src ttype rest
              (acc ++ [tfCreateFailEntry tfName])
        | .ok true =>
            let ok :=
              if ttype = "stock".toList ∨ ttype = "vix".toList then
                execStock schema src dest tfMinutes
              else
                execOption schema src dest tfMinutes
            apiResampleLoop body execStock execOption schema src ttype rest
              (acc ++ [if ok then tfSuccessEntry tfName dest
                       else tfExecFailEntry tfName])

structure ResampleRequest where
  schema     : Option PyStr
  table      : Option PyStr
  timeframes : List PyStr
  deriving DecidableEq, Repr

inductive ResampleResponse
  | badRequest                                  -- line 209 (HTTP 400)
  | okResp (results : List TfResult)            -- line 250
  deriving DecidableEq, Repr

/-- `api_resample` (resample.py lines 200-250): parameter check, table
type detection, the per-timeframe loop, and the final JSON response.  An
exception escaping the loop escapes the request. -/
def api_resample (body : PyStr → PyStr → Bool)
    (execStock execOption : PyStr → PyStr → PyStr → Int → Bool)
    (req : ResampleRequest) : Except PyErr ResampleResponse :=
  if falsyStr req.schema || falsyStr req.table || req.timeframes.isEmpty then
    .ok .badRequest
  else
    match req.schema, req.table with
    | some schema, some src =>
      match apiResampleLoop body execStock execOption schema src
              (get_table_type src) req.timeframes [] with
      | .error e => .error e
      | .ok results => .ok (.okResp results)
    | _, _ => .ok .badRequest

/-! ## Helper lemmas: order on DATETIME values -/

theorem dtLe_rfl (a : DT) : dtLe a a := by unfold dtLe; omega

theorem dtLe_trans {a b c : DT} (h1 : dtLe a b) (h2 : dtLe b c) : dtLe a c := by
  unfold dtLe at *; omega

theorem dtLe_total (a b : DT) : dtLe a b ∨ dtLe b a := by unfold dtLe; omega

theorem dtLeB_true_iff (a b : DT) : dtLeB a b = true ↔ dtLe a b := by
  simp [dtLeB]

theorem dtLt_of_ne_of_le {a b : DT} (hne : a ≠ b) (hle : dtLe a b) :
    dtLt a b := by
  have h : a.day ≠ b.day ∨ a.secs ≠ b.secs := by
    by_contra hc
    push_neg at hc
    exact hne (by cases a; cases b; simp_all)
  unfold dtLe at hle
  unfold dtLt
  omega

/-! ## Helper lemmas: insertion sort -/

theorem insertSorted_perm {α : Type} (le : α → α → Bool) (x : α) :
    ∀ l : List α, List.Perm (insertSorted le x l) (x :: l)
  | [] => List.Perm.refl _
  | y :: ys => by
    unfold insertSorted
    by_cases h : le x y = true
    · rw [if_pos h]
    · rw [if_neg h]
      exact ((insertSorted_perm le x ys).cons y).trans (List.Perm.swap x y ys)

theorem sortByB_perm {α : Type} (le : α → α → Bool) :
    ∀ l : List α, List.Perm (sortByB le l) l
  | [] => List.Perm.refl _
  | x :: xs =>
    (insertSorted_perm le x (sortByB le xs)).trans ((sortByB_perm le xs).cons x)

theorem insertSorted_pairwise {α : Type} {le : α → α → Bool}
    (trans : ∀ a b c, le a b = true → le b c = true → le a c = true)
    (total : ∀ a b, le a b = true ∨ le b a = true)
    (x : α) : ∀ {l : List α}, l.Pairwise (fun a b => le a b = true) →
      (insertSorted le x l).Pairwise (fun a b => le a b = true) := by
  intro l
  induction l with
  | nil =>
    intro _
    exact List.Pairwise.cons (fun z hz => absurd hz (List.not_mem_nil z))
      List.Pairwise.nil
  | cons y ys ih =>
    intro h
    rw [List.pairwise_cons] at h
    obtain ⟨hy, hys⟩ := h
    unfold insertSorted
    by_cases hxy : le x y = true
    · rw [if_pos hxy]
      refine List.Pairwise.cons ?_ (List.Pairwise.cons hy hys)
      intro z hz
      rcases List.mem_cons.mp hz with rfl | hz
      · exact hxy
      · exact trans x y z hxy (hy z hz)
    · rw [if_neg hxy]
      refine List.Pairwise.cons ?_ (ih hys)
      intro z hz
      have hz' : z ∈ x :: ys := (insertSorted_perm le x ys).subset hz
      rcases List.mem_cons.mp hz' with rfl | hz'
      · rcases total z y with h | h
        · exact absurd h hxy
        · exact h
      · exact hy z hz'

theorem sortByB_pairwise {α : Type} {le : α → α → Bool}
    (trans : ∀ a b c, le a b = true → le b c = true → le a c = true)
    (total : ∀ a b, le a b = true ∨ le b a = true) :
    ∀ l : List α, (sortByB le l).Pairwise (fun a b => le a b = true)
  | [] => List.Pairwise.nil
  | x :: xs =>
    insertSorted_pairwise trans total x (sortByB_pairwise trans total xs)

theorem sortByB_head_min {α : Type} {le : α → α → Bool}
    (trans : ∀ a b c, le a b = true → le b c = true → le a c = true)
    (total : ∀ a b, le a b = true ∨ le b a = true)
    (l : List α) (hne : l ≠ []) :
    ∃ m, (sortByB le l).head? = some m ∧ m ∈ l ∧ ∀ x ∈ l, le m x = true := by
  have hperm := sortByB_perm le l
  have hpw := sortByB_pairwise trans total l
  cases hs : sortByB le l with
  | nil =>
    rw [hs] at hperm
    exact absurd hperm.symm.eq_nil hne
  | cons m rest =>
    rw [hs] at hperm hpw
    rw [List.pairwise_cons] at hpw
    refine ⟨m, rfl, hperm.subset (List.mem_cons_self m rest), ?_⟩
    intro x hx
    have hx' : x ∈ m :: rest := hperm.symm.subset hx
    rcases List.mem_cons.mp hx' with rfl | hx'
    · rcases total x x with h | h <;> exact h
    · exact hpw.1 x hx'

/-- The head of `ORDER BY Timestamp` is a member attaining the minimal
timestamp of the group. -/
theorem orderByTsAsc_head {α : Type} (ts : α → DT) (g : List α)
    (hne : g ≠ []) :
    ∃ m, (orderByTsAsc ts g).head? = some m ∧ m ∈ g ∧
      ∀ x ∈ g, dtLe (ts m) (ts x) := by
  obtain ⟨m, h1, h2, h3⟩ := @sortByB_head_min α
    (fun a b => dtLeB (ts a) (ts b))
    (fun a b c hab hbc => by
      rw [dtLeB_true_iff] at *
      exact dtLe_trans hab hbc)
    (fun a b => by
      rw [dtLeB_true_iff, dtLeB_true_iff]
      exact dtLe_total _ _)
    g hne
  exact ⟨m, h1, h2, fun x hx => (dtLeB_true_iff _ _).mp (h3 x hx)⟩

/-- The head of `ORDER BY Timestamp DESC` is a member attaining the
maximal timestamp of the group. -/
theorem orderByTsDesc_head {α : Type} (ts : α → DT) (g : List α)
    (hne : g ≠ []) :
    ∃ m, (orderByTsDesc ts g).head? = some m ∧ m ∈ g ∧
      ∀ x ∈ g, dtLe (ts x) (ts m) := by
  obtain ⟨m, h1, h2, h3⟩ := @sortByB_head_min α
    (fun a b => dtLeB (ts b) (ts a))
    (fun a b c hab hbc => by
      rw [dtLeB_true_iff] at *
      exact dtLe_trans hbc hab)
    (fun a b => by
      rw [dtLeB_true_iff, dtLeB_true_iff]
      exact dtLe_total _ _)
    g hne
  exact ⟨m, h1, h2, fun x hx => (dtLeB_true_iff _ _).mp (h3 x hx)⟩

/-! ## Helper lemmas: SQL MAX / MIN / SUM folds -/

theorem foldl_max_mem (v : Int) : ∀ vs : List Int, vs.foldl max v ∈ v :: vs
  | [] => List.mem_singleton.mpr rfl
  | w :: ws => by
    have h := foldl_max_mem (max v w) ws
    simp only [List.foldl_cons]
    rcases List.mem_cons.mp h with h | h
    · rcases max_choice v w with hm | hm <;> rw [h, hm]
      · exact List.mem_cons_self _ _
      · exact List.mem_cons_of_mem _ (List.mem_cons_self _ _)
    · exact List.mem_cons_of_mem _ (List.mem_cons_of_mem _ h)

theorem foldl_max_le (v : Int) :
    ∀ vs : List Int, ∀ x ∈ v :: vs, x ≤ vs.foldl max v
  | [] => by intro x hx; rw [List.mem_singleton.mp hx]; exact le_refl _
  | w :: ws => by
    intro x hx
    simp only [List.foldl_cons]
    have ih := foldl_max_le (max v w) ws
    rcases List.mem_cons.mp hx with rfl | hx
    · exact le_trans (le_max_left x w) (ih _ (List.mem_cons_self _ _))
    · rcases List.mem_cons.mp hx with rfl | hx
      · exact le_trans (le_max_right v x) (ih _ (List.mem_cons_self _ _))
      · exact ih x (List.mem_cons_of_mem _ hx)

theorem foldl_min_mem (v : Int) : ∀ vs : List Int, vs.foldl min v ∈ v :: vs
  | [] => List.mem_singleton.mpr rfl
  | w :: ws => by
    have h := foldl_min_mem (min v w) ws
    simp only [List.foldl_cons]
    rcases List.mem_cons.mp h with h | h
    · rcases min_choice v w with hm | hm <;> rw [h, hm]
      · exact List.mem_cons_self _ _
      · exact List.mem_cons_of_mem _ (List.mem_cons_self _ _)
    · exact List.mem_cons_of_mem _ (List.mem_cons_of_mem _ h)

theorem foldl_min_le (v : Int) :
    ∀ vs : List Int, ∀ x ∈ v :: vs, vs.foldl min v ≤ x
  | [] => by intro x hx; rw [List.mem_singleton.mp hx]; exact le_refl _
  | w :: ws => by
    intro x hx
    simp only [List.foldl_cons]
    have ih := foldl_min_le (min v w) ws
    rcases List.mem_cons.mp hx with rfl | hx
    · exact le_trans (ih _ (List.mem_cons_self _ _)) (min_le_left x w)
    · rcases List.mem_cons.mp hx with rfl | hx
      · exact le_trans (ih _ (List.mem_cons_self _ _)) (min_le_right v x)
      · exact ih x (List.mem_cons_of_mem _ hx)

theorem sqlMAX_spec (xs : List Int) (hne : xs ≠ []) :
    ∃ M, sqlMAX xs = some M ∧ M ∈ xs ∧ ∀ x ∈ xs, x ≤ M := by
  cases xs with
  | nil => exact absurd rfl hne
  | cons v vs =>
    exact ⟨vs.foldl max v, rfl, foldl_max_mem v vs, foldl_max_le v vs⟩

theorem sqlMIN_spec (xs : List Int) (hne : xs ≠ []) :
    ∃ M, sqlMIN xs = some M ∧ M ∈ xs ∧ ∀ x ∈ xs, M ≤ x := by
  cases xs with
  | nil => exact absurd rfl hne
  | cons v vs =>
    exact ⟨vs.foldl min v, rfl, foldl_min_mem v vs, foldl_min_le v vs⟩

theorem foldl_add_eq (a : Int) : ∀ xs : List Int, xs.foldl (· + ·) a = a + xs.sum
  | [] => by simp
  | x :: xs => by
    simp only [List.foldl_cons, List.sum_cons]
    rw [foldl_add_eq (a + x) xs]
    ring

theorem sqlSUM_eq_sum (xs : List Int) : sqlSUM xs = xs.sum := by
  unfold sqlSUM
  rw [foldl_add_eq]
  ring

/-! ## Helper lemmas: the concatenated-string MIN/MAX trick -/

theorem concatLtB_true_le {k1 k2 : Nat} {t1 t2 : List Char}
    (h : concatLtB (k1, t1) (k2, t2) = true) : k1 ≤ k2 := by
  simp only [concatLtB, Bool.or_eq_true, Bool.and_eq_true,
    decide_eq_true_eq] at h
  rcases h with h | ⟨h, _⟩
  · exact le_of_lt h
  · exact le_of_eq h

theorem concatLtB_false_le {k1 k2 : Nat} {t1 t2 : List Char}
    (h : concatLtB (k1, t1) (k2, t2) = false) : k2 ≤ k1 := by
  simp only [concatLtB, Bool.or_eq_false_iff, Bool.and_eq_false_iff,
    decide_eq_false_iff_not] at h
  omega

theorem concatMin_fold_spec {α : Type} (ts : α → DT) (val : α → Int) :
    ∀ (l : List α) (m : α),
      (l.foldl (concatMin2 ts val) m = m ∨
        l.foldl (concatMin2 ts val) m ∈ l) ∧
      dtCode (ts (l.foldl (concatMin2 ts val) m)) ≤ dtCode (ts m) ∧
      ∀ x ∈ l, dtCode (ts (l.foldl (concatMin2 ts val) m)) ≤ dtCode (ts x)
  | [], m =>
    ⟨Or.inl rfl, le_refl _, fun x hx => absurd hx (List.not_mem_nil x)⟩
  | x :: xs, m => by
    have hstep : (x :: xs).foldl (concatMin2 ts val) m
        = xs.foldl (concatMin2 ts val) (concatMin2 ts val m x) :=
      List.foldl_cons _ _
    by_cases hc : concatLtB (dtCode (ts x), decimalText (val x))
        (dtCode (ts m), decimalText (val m)) = true
    · have hmx : concatMin2 ts val m x = x := by
        unfold concatMin2; rw [if_pos hc]
      rw [hmx] at hstep
      obtain ⟨h1, h2, h3⟩ := concatMin_fold_spec ts val xs x
      rw [hstep]
      refine ⟨?_, le_trans h2 (concatLtB_true_le hc), ?_⟩
      · rcases h1 with h | h
        · rw [h]; exact Or.inr (List.mem_cons_self x xs)
        · exact Or.inr (List.mem_cons_of_mem x h)
      · intro y hy
        rcases List.mem_cons.mp hy with rfl | hy
        · exact h2
        · exact h3 y hy
    · have hmx : concatMin2 ts val m x = m := by
        unfold concatMin2
        rw [if_neg hc]
      rw [hmx] at hstep
      rw [Bool.not_eq_true] at hc
      obtain ⟨h1, h2, h3⟩ := concatMin_fold_spec ts val xs m
      rw [hstep]
      refine ⟨?_, h2, ?_⟩
      · rcases h1 with h | h
        · exact Or.inl h
        · exact Or.inr (List.mem_cons_of_mem x h)
      · intro y hy
        rcases List.mem_cons.mp hy with rfl | hy
        · exact le_trans h2 (concatLtB_false_le hc)
        · exact h3 y hy

theorem concatMinRow_spec {α : Type} (ts : α → DT) (val : α → Int)
    (g : List α) (hne : g ≠ []) :
    ∃ m ∈ g, concatMinRow ts val g = some m ∧
      ∀ x ∈ g, dtCode (ts m) ≤ dtCode (ts x) := by
  cases g with
  | nil => exact absurd rfl hne
  | cons r rest =>
    obtain ⟨h1, h2, h3⟩ := concatMin_fold_spec ts val rest r
    refine ⟨rest.foldl (concatMin2 ts val) r, ?_, rfl, ?_⟩
    · rcases h1 with h | h
      · rw [h]; exact List.mem_cons_self r rest
      · exact List.mem_cons_of_mem r h
    · intro x hx
      rcases List.mem_cons.mp hx with rfl | hx
      · exact h2
      · exact h3 x hx

theorem concatMax_fold_spec {α : Type} (ts : α → DT) (val : α → Int) :
    ∀ (l : List α) (m : α),
      (l.foldl (concatMax2 ts val) m = m ∨
        l.foldl (concatMax2 ts val) m ∈ l) ∧
      dtCode (ts m) ≤ dtCode (ts (l.foldl (concatMax2 ts val) m)) ∧
      ∀ x ∈ l, dtCode (ts x) ≤ dtCode (ts (l.foldl (concatMax2 ts val) m))
  | [], m =>
    ⟨Or.inl rfl, le_refl _, fun x hx => absurd hx (List.not_mem_nil x)⟩
  | x :: xs, m => by
    have hstep : (x :: xs).foldl (concatMax2 ts val) m
        = xs.foldl (concatMax2 ts val) (concatMax2 ts val m x) :=
      List.foldl_cons _ _
    by_cases hc : concatLtB (dtCode (ts m), decimalText (val m))
        (dtCode (ts x), decimalText (val x)) = true
    · have hmx : concatMax2 ts val m x = x := by
        unfold concatMax2; rw [if_pos hc]
      rw [hmx] at hstep
      obtain ⟨h1, h2, h3⟩ := concatMax_fold_spec ts val xs x
      rw [hstep]
      refine ⟨?_, le_trans (concatLtB_true_le hc) h2, ?_⟩
      · rcases h1 with h | h
        · rw [h]; exact Or.inr (List.mem_cons_self x xs)
        · exact Or.inr (List.mem_cons_of_mem x h)
      · intro y hy
        rcases List.mem_cons.mp hy with rfl | hy
        · exact h2
        · exact h3 y hy
    · have hmx : concatMax2 ts val m x = m := by
        unfold concatMax2
        rw [if_neg hc]
      rw [hmx] at hstep
      rw [Bool.not_eq_true] at hc
      obtain ⟨h1, h2, h3⟩ := concatMax_fold_spec ts val xs m
      rw [hstep]
      refine ⟨?_, h2, ?_⟩
      · rcases h1 with h | h
        · exact Or.inl h
        · exact Or.inr (List.mem_cons_of_mem x h)
      · intro y hy
        rcases List.mem_cons.mp hy with rfl | hy
        · exact le_trans (concatLtB_false_le hc) h2
        · exact h3 y hy

theorem concatMaxRow_spec {α : Type} (ts : α → DT) (val : α → Int)
    (g : List α) (hne : g ≠ []) :
    ∃ m ∈ g, concatMaxRow ts val g = some m ∧
      ∀ x ∈ g, dtCode (ts x) ≤ dtCode (ts m) := by
  cases g with
  | nil => exact absurd rfl hne
  | cons r rest =>
    obtain ⟨h1, h2, h3⟩ := concatMax_fold_spec ts val rest r
    refine ⟨rest.foldl (concatMax2 ts val) r, ?_, rfl, ?_⟩
    · rcases h1 with h | h
      · rw [h]; exact List.mem_cons_self r rest
      · exact List.mem_cons_of_mem r h
    · intro x hx
      rcases List.mem_cons.mp hx with rfl | hx
      · exact h2
      · exact h3 x hx

/-! ## Helper lemmas: `DATE_FORMAT` code is chronological -/

theorem inSession_valid {t : DT} (h : inSession t) : t.valid := by
  unfold inSession sessionStartSecs sessionEndSecs at h
  unfold DT.valid
  omega

theorem dtCode_lt_iff {a b : DT} (ha : a.valid) (hb : b.valid) :
    dtCode a < dtCode b ↔ dtLt a b := by
  unfold DT.valid at ha hb
  unfold dtCode hmsCode dtLt
  omega

theorem dtLt_trichot (a b : DT) (h : a ≠ b) : dtLt a b ∨ dtLt b a := by
  have hd : a.day ≠ b.day ∨ a.secs ≠ b.secs := by
    by_contra hc
    push_neg at hc
    exact h (by cases a; cases b; simp_all)
  unfold dtLt
  omega

/-! ## Helper lemmas: intra-batch dedup and partitioning -/

theorem dedupFirstAux_length_le (k : MRow → MKey) :
    ∀ (rows : List MRow) (seen : List MKey),
      (dedupFirstAux k seen rows).length ≤ rows.length
  | [], _ => le_refl _
  | r :: rest, seen => by
    unfold dedupFirstAux
    by_cases h : k r ∈ seen
    · rw [if_pos h]
      exact le_trans (dedupFirstAux_length_le k rest seen) (Nat.le_succ _)
    · rw [if_neg h]
      simpa using dedupFirstAux_length_le k rest (k r :: seen)

theorem dedupFirstAux_spec (k : MRow → MKey) :
    ∀ (rows : List MRow) (seen : List MKey),
      ((dedupFirstAux k seen rows).map k).Nodup ∧
        ∀ r ∈ dedupFirstAux k seen rows, k r ∉ seen
  | [], _ => ⟨List.nodup_nil, fun r hr => absurd hr (List.not_mem_nil r)⟩
  | r :: rest, seen => by
    unfold dedupFirstAux
    by_cases h : k r ∈ seen
    · rw [if_pos h]
      exact dedupFirstAux_spec k rest seen
    · rw [if_neg h]
      obtain ⟨ih1, ih2⟩ := dedupFirstAux_spec k rest (k r :: seen)
      refine ⟨?_, ?_⟩
      · rw [List.map_cons, List.nodup_cons]
        refine ⟨?_, ih1⟩
        intro hmem
        obtain ⟨x, hx, hkx⟩ := List.mem_map.mp hmem
        exact (ih2 x hx) (hkx ▸ List.mem_cons_self _ _)
      · intro x hx
        rcases List.mem_cons.mp hx with rfl | hx
        · exact h
        · intro hxs
          exact (ih2 x hx) (List.mem_cons_of_mem _ hxs)

theorem drop_duplicates_nodup (k : MRow → MKey) (rows : List MRow) :
    ((drop_duplicates k rows).map k).Nodup :=
  (dedupFirstAux_spec k rows []).1

theorem drop_duplicates_length_le (k : MRow → MKey) (rows : List MRow) :
    (drop_duplicates k rows).length ≤ rows.length :=
  dedupFirstAux_length_le k rows []

theorem dedupFirstAux_subset (k : MRow → MKey) :
    ∀ (rows : List MRow) (seen : List MKey) (r : MRow),
      r ∈ dedupFirstAux k seen rows → r ∈ rows
  | [], _, r, hr => absurd hr (List.not_mem_nil r)
  | x :: rest, seen, r, hr => by
    unfold dedupFirstAux at hr
    by_cases h : k x ∈ seen
    · rw [if_pos h] at hr
      exact List.mem_cons_of_mem x (dedupFirstAux_subset k rest seen r hr)
    · rw [if_neg h] at hr
      rcases List.mem_cons.mp hr with rfl | hr
      · exact List.mem_cons_self r rest
      · exact List.mem_cons_of_mem x
          (dedupFirstAux_subset k rest (k x :: seen) r hr)

theorem drop_duplicates_subset (k : MRow → MKey) (rows : List MRow)
    (r : MRow) (hr : r ∈ drop_duplicates k rows) : r ∈ rows :=
  dedupFirstAux_subset k rows [] r hr

theorem length_filter_bool_split {α : Type} (p : α → Bool) :
    ∀ l : List α,
      (l.filter p).length + (l.filter (fun r => !p r)).length = l.length
  | [] => rfl
  | x :: xs => by
    have ih := length_filter_bool_split p xs
    by_cases h : p x = true
    · simp [List.filter_cons, h, ih]
      omega
    · rw [Bool.not_eq_true] at h
      simp [List.filter_cons, h, ih]
      omega

/-! ## Helper lemmas: character-list canonicalization -/

theorem pyReplaceChar_eq_self {a b : Char} :
    ∀ {s : PyStr}, a ∉ s → pyReplaceChar a b s = s
  | [], _ => rfl
  | c :: cs, h => by
    have hc : c ≠ a := fun hc => h (hc ▸ List.mem_cons_self c cs)
    unfold pyReplaceChar
    simp only [List.map_cons, if_neg hc]
    have := @pyReplaceChar_eq_self a b cs
      (fun hm => h (List.mem_cons_of_mem c hm))
    unfold pyReplaceChar at this
    rw [this]

theorem pyReplaceChar_inv :
    ∀ {s : PyStr}, 'T' ∉ s →
      pyReplaceChar 'T' ' ' (pyReplaceChar ' ' 'T' s) = s
  | [], _ => rfl
  | c :: cs, h => by
    have hc : c ≠ 'T' := fun hc => h (hc ▸ List.mem_cons_self c cs)
    have ih := @pyReplaceChar_inv cs
      (fun hm => h (List.mem_cons_of_mem c hm))
    unfold pyReplaceChar at ih ⊢
    simp only [List.map_cons, List.map_map] at ih ⊢
    rw [ih]
    by_cases hsp : c = ' '
    · subst hsp; simp
    · rw [if_neg hsp, if_neg hc]

theorem not_mem_pyReplaceChar {a b x : Char} :
    ∀ {s : PyStr}, x ∉ s → x ≠ b → x ∉ pyReplaceChar a b s := by
  intro s hs hxb hmem
  obtain ⟨c, hc, hcx⟩ := List.mem_map.mp hmem
  by_cases hca : c = a
  · rw [if_pos hca] at hcx
    exact hxb hcx.symm
  · rw [if_neg hca] at hcx
    exact hs (hcx ▸ hc)

theorem pySplitHead_eq_self {sep : Char} :
    ∀ {s : PyStr}, sep ∉ s → pySplitHead sep s = s
  | [], _ => rfl
  | c :: cs, h => by
    have hc : c ≠ sep := fun hc => h (hc ▸ List.mem_cons_self c cs)
    have ih := @pySplitHead_eq_self sep cs
      (fun hm => h (List.mem_cons_of_mem c hm))
    unfold pySplitHead at ih ⊢
    rw [List.takeWhile_cons, if_pos (by simpa using hc), ih]

theorem pySplitHead_append {sep : Char} :
    ∀ {s : PyStr}, sep ∉ s →
      ∀ t : PyStr, pySplitHead sep (s ++ t) = s ++ pySplitHead sep t
  | [], _, t => rfl
  | c :: cs, h, t => by
    have hc : c ≠ sep := fun hc => h (hc ▸ List.mem_cons_self c cs)
    have ih := @pySplitHead_append sep cs
      (fun hm => h (List.mem_cons_of_mem c hm)) t
    unfold pySplitHead at ih ⊢
    rw [List.cons_append, List.takeWhile_cons, if_pos (by simpa using hc), ih,
      List.cons_append]

theorem pySplitHead_append_sep {sep : Char} {s : PyStr} (h : sep ∉ s)
    (t : PyStr) : pySplitHead sep (s ++ sep :: t) = s := by
  rw [pySplitHead_append h]
  unfold pySplitHead
  rw [List.takeWhile_cons, if_neg (by simp), List.append_nil]

/-! ## Helper lemmas: filtering and the resample pipelines -/

theorem filterMap_filter_isSome {α β : Type} (f : α → Option β) :
    ∀ l : List α,
      (l.filter (fun r => (f r).isSome)).filterMap f = l.filterMap f
  | [] => rfl
  | x :: xs => by
    have ih := filterMap_filter_isSome f xs
    cases hf : f x with
    | none =>
      rw [List.filter_cons, List.filterMap_cons, hf]
      simp only [hf, Option.isSome_none, Bool.false_eq_true, if_false]
      exact ih
    | some b =>
      rw [List.filter_cons]
      simp only [hf, Option.isSome_some, if_true]
      rw [List.filterMap_cons, hf, List.filterMap_cons, hf, ih]

/-! ## Claim theorems -/

/-- C2: for every in-session timestamp and every supported timeframe
(3, 5, 15, 60 minutes), the assigned bucket start is the session start of
the timestamp's own date (09:30:00 on the same day) plus
`floor(wholeMinutesSinceSessionStart / tf) * tf` minutes, computed with
integer/floor arithmetic (the right conjunct is Nat floor division on the
whole minutes elapsed); and because the anchor is the timestamp's own
date, timestamps on different calendar dates never share a bucket. -/
theorem claim_C2 (t : DT) (tfN : Nat)
    (htf : tfN = 3 ∨ tfN = 5 ∨ tfN = 15 ∨ tfN = 60)
    (hs : inSession t) :
    candleTs t (tfN : Int) =
      ⟨t.day, (34200 : Int) +
        (((((t.secs - 34200).toNat / 60) / tfN) * tfN * 60 : Nat) : Int)⟩
    ∧ ∀ u : DT, u.day ≠ t.day →
        candleTs u (tfN : Int) ≠ candleTs t (tfN : Int) := by
  constructor
  · have h0 : (0 : Int) ≤ t.secs - 34200 := by
      unfold inSession sessionStartSecs at hs
      omega
    have hk : t.secs - 34200 = (((t.secs - 34200).toNat : Nat) : Int) :=
      (Int.toNat_of_nonneg h0).symm
    unfold candleTs bucketId elapsedMinutes sessionStartSecs
    rw [DT.mk.injEq]
    refine ⟨rfl, ?_⟩
    rw [hk]
    have h1 : Int.tdiv (((t.secs - 34200).toNat : Nat) : Int) 60
        = (((t.secs - 34200).toNat / 60 : Nat) : Int) := rfl
    rw [h1, ← Int.ofNat_fdiv]
    norm_cast
  · intro u hu hcontra
    have hday := congrArg DT.day hcontra
    exact hu hday

/-- C2 witness: the cross-day scenario of the claim — a row at 15:59 on
day 1 and a row at 09:30 on day 2 with timeframe 60 land in different
buckets. -/
theorem claim_C2_witness :
    candleTs ⟨0, 57540⟩ ((60 : Nat) : Int) ≠
      candleTs ⟨1, 34200⟩ ((60 : Nat) : Int) :=
  (claim_C2 ⟨1, 34200⟩ 60 (by decide) (by decide)).2 ⟨0, 57540⟩ (by decide)

/-- C7: the claim says a destination-table-creation or bulk-insert failure
for one timeframe is reported as a per-timeframe failure entry while
sibling timeframes proceed.  The code cannot reach that handling: the
route calls `create_resampled_table(schema, dest_table, table_type)` with
three arguments (resample.py line 223) while database.py line 128 defines
the function with two parameters, so Python raises `TypeError` and the
whole request aborts — for every behaviour of the DB-touching bodies. -/
theorem claim_C7 (body : PyStr → PyStr → Bool)
    (execStock execOption : PyStr → PyStr → PyStr → Int → Bool) :
    api_resample body execStock execOption
      ⟨some ("qqq_data".toList), some ("ib_stock_1min".toList),
       ["3min".toList]⟩
      = .error .typeError := rfl

/-- C8 counterexample: a request whose only timeframe is the unsupported
`2min` returns a success response with an EMPTY results list — no
per-timeframe `UnsupportedTimeframe` failure entry is produced, contrary
to the claim. -/
theorem claim_C8_counterexample :
    api_resample (fun _ _ => true) (fun _ _ _ _ => true) (fun _ _ _ _ => true)
      ⟨some ("qqq_data".toList), some ("ib_stock_1min".toList),
       ["2min".toList]⟩
      = .ok (.okResp []) := rfl

/-- C8 (amended): a requested timeframe outside the supported set
{3min, 5min, 15min, 1hr} is silently skipped — it contributes no entry
(neither failure nor success) to the per-timeframe results, and the loop
moves on to the remaining requested timeframes unchanged. -/
theorem claim_C8_amended (body : PyStr → PyStr → Bool)
    (execStock execOption : PyStr → PyStr → PyStr → Int → Bool)
    (schema src ttype tfName : PyStr) (rest : List PyStr)
    (acc : List TfResult) (h : lookupTf tfName = none) :
    apiResampleLoop body execStock execOption schema src ttype
        (tfName :: rest) acc
      = apiResampleLoop body execStock execOption schema src ttype rest acc
    := by
  conv_lhs => unfold apiResampleLoop
  rw [h]

/-- C8 witness: skipping the unsupported `2min` on a concrete loop
state. -/
theorem claim_C8_witness :
    apiResampleLoop (fun _ _ => true) (fun _ _ _ _ => true)
      (fun _ _ _ _ => true) ("qqq_data".toList) ("ib_stock_1min".toList)
      ("stock".toList) ["2min".toList] [] = .ok [] := by
  rw [claim_C8_amended (fun _ _ => true) (fun _ _ _ _ => true)
    (fun _ _ _ _ => true) ("qqq_data".toList) ("ib_stock_1min".toList)
    ("stock".toList) ("2min".toList) [] [] rfl]
  rfl

/-- C1 counterexample: merge.py line 150 deduplicates the batch on RAW
column values, so a batch holding the same logical row under two textual
timestamp spellings (`'T'` separator vs space) survives dedup intact;
with an empty existing-key set both rows land in `newRows` with the SAME
canonical Identity Key — the claimed uniqueness of keys within `newRows`
fails. -/
theorem claim_C1_counterexample :
    ¬ ((newRows rowKey []
        (drop_duplicates rawKey
          [⟨450, "call".toList, "2026-01-16 00:00:00".toList,
            "2026-01-02T09:31:00".toList⟩,
           ⟨450, "call".toList, "2026-01-16 00:00:00".toList,
            "2026-01-02 09:31:00".toList⟩])).map rowKey).Nodup := by decide

/-- C1 (amended): for every merge invocation, after the intra-batch
deduplication — which merge.py line 150 performs on the RAW key-column
values, not on canonicalized keys — the partition satisfies: the new and
duplicate row counts sum to the incoming count minus the intra-batch
(raw) duplicates; no canonical key occurs in both parts; every canonical
key of a new row is absent from the existing-key set; the RAW key tuples
are unique within the new rows; and the canonical Identity Keys are
unique within the new rows PROVIDED canonically-equal batch rows are
textually identical — without that proviso uniqueness can fail (see the
counterexample). -/
theorem claim_C1_amended (incoming : List MRow) (existing : List MKey) :
    (newRows rowKey existing (drop_duplicates rawKey incoming)).length +
      (duplicateRows rowKey existing (drop_duplicates rawKey incoming)).length
      = incoming.length - csvDupesCount rawKey incoming
    ∧ (∀ r ∈ newRows rowKey existing (drop_duplicates rawKey incoming),
        ∀ s ∈ duplicateRows rowKey existing (drop_duplicates rawKey incoming),
          rowKey r ≠ rowKey s)
    ∧ (∀ r ∈ newRows rowKey existing (drop_duplicates rawKey incoming),
        rowKey r ∉ existing)
    ∧ ((newRows rowKey existing (drop_duplicates rawKey incoming)).map
        rawKey).Nodup
    ∧ ((∀ r ∈ incoming, ∀ s ∈ incoming,
          rowKey r = rowKey s → rawKey r = rawKey s) →
        ((newRows rowKey existing (drop_duplicates rawKey incoming)).map
          rowKey).Nodup) := by
  have hndraw : ((newRows rowKey existing
      (drop_duplicates rawKey incoming)).map rawKey).Nodup := by
    have hnd := drop_duplicates_nodup rawKey incoming
    have hsub : List.Sublist
        (newRows rowKey existing (drop_duplicates rawKey incoming))
        (drop_duplicates rawKey incoming) := List.filter_sublist _
    exact hnd.sublist (hsub.map rawKey)
  refine ⟨?_, ?_, ?_, hndraw, ?_⟩
  · have hsplit := length_filter_bool_split
      (fun r => decide (rowKey r ∈ existing)) (drop_duplicates rawKey incoming)
    have hle := drop_duplicates_length_le rawKey incoming
    unfold newRows duplicateRows csvDupesCount
    omega
  · intro r hr s hs hkey
    obtain ⟨_, hr2⟩ := List.mem_filter.mp hr
    obtain ⟨_, hs2⟩ := List.mem_filter.mp hs
    rw [Bool.not_eq_eq_eq_not, Bool.not_true, decide_eq_false_iff_not] at hr2
    rw [decide_eq_true_eq] at hs2
    exact hr2 (hkey ▸ hs2)
  · intro r hr
    obtain ⟨_, hr2⟩ := List.mem_filter.mp hr
    rw [Bool.not_eq_eq_eq_not, Bool.not_true, decide_eq_false_iff_not] at hr2
    exact hr2
  · intro hInj
    have hmemInc : ∀ r ∈ newRows rowKey existing
        (drop_duplicates rawKey incoming), r ∈ incoming := by
      intro r hr
      exact drop_duplicates_subset rawKey incoming r (List.mem_filter.mp hr).1
    refine List.Nodup.map_on ?_ (List.Nodup.of_map rawKey hndraw)
    intro x hx y hy hxy
    exact List.inj_on_of_nodup_map hndraw hx hy
      (hInj x (hmemInc x hx) y (hmemInc y hy) hxy)

/-- C1 witness: on a batch of two textually canonical rows with distinct
keys and an empty existing-key set, the amended uniqueness conjunct
yields distinct canonical keys in `newRows`. -/
theorem claim_C1_witness :
    ((newRows rowKey []
        (drop_duplicates rawKey
          [⟨450, "call".toList, "2026-01-16 00:00:00".toList,
            "2026-01-02 09:31:00".toList⟩,
           ⟨455, "call".toList, "2026-01-16 00:00:00".toList,
            "2026-01-02 09:31:00".toList⟩])).map rowKey).Nodup :=
  (claim_C1_amended
    [⟨450, "call".toList, "2026-01-16 00:00:00".toList,
      "2026-01-02 09:31:00".toList⟩,
     ⟨455, "call".toList, "2026-01-16 00:00:00".toList,
      "2026-01-02 09:31:00".toList⟩] []).2.2.2.2 (by decide)

/-- When the bulk append hits no primary-key collision, `mergeRun`
returns the partition counters and appends the new rows. -/
theorem mergeRun_ok (rt : PyStr → PyStr) (stored incoming : List MRow)
    (hA : (newRows rowKey (stored.map (storedKey rt))
        (drop_duplicates rawKey incoming)).any
        (fun r => decide (storedTuple rt r ∈ stored.map (storedTuple rt)))
      = false)
    (hB : ((newRows rowKey (stored.map (storedKey rt))
        (drop_duplicates rawKey incoming)).map (storedTuple rt)).Nodup) :
    mergeRun rt stored incoming =
      .ok ({ rows_inserted := (newRows rowKey (stored.map (storedKey rt))
               (drop_duplicates rawKey incoming)).length
           , duplicates_skipped := (drop_duplicates rawKey incoming).length -
               (newRows rowKey (stored.map (storedKey rt))
                 (drop_duplicates rawKey incoming)).length
           , csv_dupes := incoming.length -
               (drop_duplicates rawKey incoming).length },
          stored ++ newRows rowKey (stored.map (storedKey rt))
            (drop_duplicates rawKey incoming)) := by
  unfold mergeRun
  simp only [hA, decide_eq_true hB]
  rfl

/-- C4 counterexample: a one-row batch whose `ExpiryDate` is the bare
date `2026-01-16`.  The first merge inserts it; at the second merge the
existing-key set — re-read through MySQL's DATETIME round-trip, which
re-renders the bare date as `2026-01-16 00:00:00` — no longer matches the
batch row's canonical key, so the row is classified as new again and the
bulk append dies on the primary key (Database error 500) instead of
yielding `insertedCount == 0`: the claim fails for this batch. -/
theorem claim_C4_counterexample :
    mergeRun bareDateReRead []
      [⟨450, "call".toList, "2026-01-16".toList,
        "2026-01-02 09:31:00".toList⟩]
      = .ok (⟨1, 0, 0⟩,
        [⟨450, "call".toList, "2026-01-16".toList,
          "2026-01-02 09:31:00".toList⟩])
    ∧ mergeRun bareDateReRead
        [⟨450, "call".toList, "2026-01-16".toList,
          "2026-01-02 09:31:00".toList⟩]
        [⟨450, "call".toList, "2026-01-16".toList,
          "2026-01-02 09:31:00".toList⟩]
      = .error .databaseError :=
  ⟨rfl, rfl⟩

/-- C4 (amended): for every batch whose raw datetime texts the store
re-reads to exactly their insert-time canonical form (`rt` agrees with
`normalize_dt` on them — e.g. texts already written
`%Y-%m-%d %H:%M:%S`), and whose canonically-equal rows are textually
identical, merging and then immediately re-merging the identical batch
succeeds with `insertedCount = 0` the second time, a duplicate count of
`csvRowCount` minus the first run's intra-batch duplicates, and an
unchanged store.  Outside these conditions the second merge can
misclassify rows as new and abort on the primary key (see the
counterexample). -/
theorem claim_C4_amended (rt : PyStr → PyStr) (stored incoming : List MRow)
    (hRT : ∀ r ∈ incoming,
      rt r.ExpiryDate = normalize_dt (some r.ExpiryDate) ∧
      rt r.Timestamp = normalize_dt (some r.Timestamp))
    (hInj : ∀ r ∈ incoming, ∀ s ∈ incoming,
      rowKey r = rowKey s → rawKey r = rawKey s) :
    ∃ c1 : MergeCounts, ∃ stored1 : List MRow,
      mergeRun rt stored incoming = .ok (c1, stored1) ∧
      mergeRun rt stored1 incoming
        = .ok ({ rows_inserted := 0
               , duplicates_skipped := incoming.length - c1.csv_dupes
               , csv_dupes := c1.csv_dupes }, stored1) := by
  have hmemInc : ∀ r ∈ newRows rowKey (stored.map (storedKey rt))
      (drop_duplicates rawKey incoming), r ∈ incoming := by
    intro r hr
    exact drop_duplicates_subset rawKey incoming r (List.mem_filter.mp hr).1
  have hsk : ∀ r ∈ incoming, storedKey rt r = rowKey r := by
    intro r hr
    obtain ⟨h1, h2⟩ := hRT r hr
    unfold storedKey rowKey
    rw [h1, h2]
  have htk : ∀ r s : MRow, storedTuple rt r = storedTuple rt s →
      storedKey rt r = storedKey rt s := by
    intro r s h
    unfold storedTuple at h
    unfold storedKey
    simp only [Prod.mk.injEq] at h ⊢
    exact ⟨h.1, by rw [h.2.1], h.2.2.1, h.2.2.2⟩
  have hndraw : ((newRows rowKey (stored.map (storedKey rt))
      (drop_duplicates rawKey incoming)).map rawKey).Nodup := by
    have hnd := drop_duplicates_nodup rawKey incoming
    have hsub : List.Sublist
        (newRows rowKey (stored.map (storedKey rt))
          (drop_duplicates rawKey incoming))
        (drop_duplicates rawKey incoming) := List.filter_sublist _
    exact hnd.sublist (hsub.map rawKey)
  have hndrow : ((newRows rowKey (stored.map (storedKey rt))
      (drop_duplicates rawKey incoming)).map rowKey).Nodup := by
    refine List.Nodup.map_on ?_ (List.Nodup.of_map rawKey hndraw)
    intro x hx y hy hxy
    exact List.inj_on_of_nodup_map hndraw hx hy
      (hInj x (hmemInc x hx) y (hmemInc y hy) hxy)
  have hnotmem : ∀ r ∈ newRows rowKey (stored.map (storedKey rt))
      (drop_duplicates rawKey incoming),
      rowKey r ∉ stored.map (storedKey rt) := by
    intro r hr
    have hr2 := (List.mem_filter.mp hr).2
    rw [Bool.not_eq_eq_eq_not, Bool.not_true, decide_eq_false_iff_not] at hr2
    exact hr2
  have hA : (newRows rowKey (stored.map (storedKey rt))
      (drop_duplicates rawKey incoming)).any
      (fun r => decide (storedTuple rt r ∈ stored.map (storedTuple rt)))
      = false := by
    rw [List.any_eq_false]
    intro r hr
    rw [decide_eq_true_eq]
    intro hmem
    obtain ⟨s, hs, hts⟩ := List.mem_map.mp hmem
    apply hnotmem r hr
    rw [← hsk r (hmemInc r hr), ← htk s r hts]
    exact List.mem_map.mpr ⟨s, hs, rfl⟩
  have hB : ((newRows rowKey (stored.map (storedKey rt))
      (drop_duplicates rawKey incoming)).map (storedTuple rt)).Nodup := by
    refine List.Nodup.map_on ?_ (List.Nodup.of_map rowKey hndrow)
    intro x hx y hy hxy
    have hkey := htk x y hxy
    rw [hsk x (hmemInc x hx), hsk y (hmemInc y hy)] at hkey
    exact List.inj_on_of_nodup_map hndrow hx hy hkey
  have hrun1 := mergeRun_ok rt stored incoming hA hB
  have hnil : newRows rowKey
      ((stored ++ newRows rowKey (stored.map (storedKey rt))
        (drop_duplicates rawKey incoming)).map (storedKey rt))
      (drop_duplicates rawKey incoming) = [] := by
    unfold newRows
    rw [List.filter_eq_nil_iff]
    intro r hr
    intro hfalse
    rw [Bool.not_eq_eq_eq_not, Bool.not_true, decide_eq_false_iff_not]
      at hfalse
    apply hfalse
    rw [List.map_append, List.mem_append]
    by_cases hmem : rowKey r ∈ stored.map (storedKey rt)
    · exact Or.inl hmem
    · refine Or.inr ?_
      have hrnew : r ∈ newRows rowKey (stored.map (storedKey rt))
          (drop_duplicates rawKey incoming) :=
        List.mem_filter.mpr ⟨hr, by
          rw [Bool.not_eq_eq_eq_not, Bool.not_true, decide_eq_false_iff_not]
          exact hmem⟩
      rw [← hsk r (hmemInc r hrnew)]
      exact List.mem_map.mpr ⟨r, hrnew, rfl⟩
  have hA2 : (newRows rowKey
      ((stored ++ newRows rowKey (stored.map (storedKey rt))
        (drop_duplicates rawKey incoming)).map (storedKey rt))
      (drop_duplicates rawKey incoming)).any
      (fun r => decide (storedTuple rt r ∈
        (stored ++ newRows rowKey (stored.map (storedKey rt))
          (drop_duplicates rawKey incoming)).map (storedTuple rt)))
      = false := by
    rw [hnil]
    rfl
  have hB2 : ((newRows rowKey
      ((stored ++ newRows rowKey (stored.map (storedKey rt))
        (drop_duplicates rawKey incoming)).map (storedKey rt))
      (drop_duplicates rawKey incoming)).map (storedTuple rt)).Nodup := by
    rw [hnil]
    exact List.nodup_nil
  have hrun2 := mergeRun_ok rt
    (stored ++ newRows rowKey (stored.map (storedKey rt))
      (drop_duplicates rawKey incoming)) incoming hA2 hB2
  rw [hnil] at hrun2
  have hle := drop_duplicates_length_le rawKey incoming
  refine ⟨_, _, hrun1, ?_⟩
  rw [hrun2]
  simp only [List.length_nil, List.append_nil]
  have harith : (drop_duplicates rawKey incoming).length - 0
      = incoming.length -
          (incoming.length - (drop_duplicates rawKey incoming).length) := by
    omega
  rw [harith]

/-- C4 witness: the amended round trip at a concrete one-row batch whose
datetime texts are already canonical (`rt` the identity re-read): the
second merge inserts nothing and reports the row as a duplicate. -/
theorem claim_C4_witness :
    ∃ c1 : MergeCounts, ∃ stored1 : List MRow,
      mergeRun (fun s => s) []
        [⟨450, "call".toList, "2026-01-16 00:00:00".toList,
          "2026-01-02 09:31:00".toList⟩] = .ok (c1, stored1) ∧
      mergeRun (fun s => s) stored1
        [⟨450, "call".toList, "2026-01-16 00:00:00".toList,
          "2026-01-02 09:31:00".toList⟩]
        = .ok ({ rows_inserted := 0
               , duplicates_skipped := 1 - c1.csv_dupes
               , csv_dupes := c1.csv_dupes }, stored1) :=
  claim_C4_amended (fun s => s) []
    [⟨450, "call".toList, "2026-01-16 00:00:00".toList,
      "2026-01-02 09:31:00".toList⟩]
    (by decide) (by decide)

/-- C5: both resample pipelines process exactly the rows whose
time-of-day lies in the closed interval [09:30:00, 15:59:00]
(34200 ≤ secs ≤ 57540) and whose Open/Close/High/Low are all non-NULL:
the WHERE stage keeps precisely those rows (first two conjuncts), the
pipeline output is unchanged when the source is restricted to the kept
rows — so a filtered-out row contributes to no output candle (next two
conjuncts) — and concretely a 15:59:00 row lands in a bucket while a
16:00:00 row and a NULL-open row produce no candle (last conjuncts). -/
theorem claim_C5 :
    (∀ r : SRow, (cleanS r).isSome = true ↔
      ((34200 : Int) ≤ r.Timestamp.secs ∧ r.Timestamp.secs ≤ 57540 ∧
        r.Open ≠ none ∧ r.Close ≠ none ∧ r.High ≠ none ∧ r.Low ≠ none))
    ∧ (∀ r : ORow, (cleanO r).isSome = true ↔
      ((34200 : Int) ≤ r.Timestamp.secs ∧ r.Timestamp.secs ≤ 57540 ∧
        r.Open ≠ none ∧ r.Close ≠ none ∧ r.High ≠ none ∧ r.Low ≠ none))
    ∧ (∀ (src : List SRow) (tf : Int),
        stockResample src tf
          = stockResample (src.filter (fun r => (cleanS r).isSome)) tf)
    ∧ (∀ (src : List ORow) (tf : Int),
        optionResample src tf
          = optionResample (src.filter (fun r => (cleanO r).isSome)) tf)
    ∧ stockResample [⟨⟨0, 57540⟩, some 1, some 2, some 3, some 0, 4⟩] 60
        = [⟨⟨0, 55800⟩, some 1, some 2, some 3, some 0, 4⟩]
    ∧ stockResample [⟨⟨0, 57600⟩, some 1, some 2, some 3, some 0, 4⟩] 60 = []
    ∧ stockResample [⟨⟨0, 34200⟩, none, some 2, some 3, some 0, 4⟩] 60 = []
    := by
  refine ⟨?_, ?_, ?_, ?_, rfl, rfl, rfl⟩
  · intro r
    obtain ⟨ts, o, c, h, l, v⟩ := r
    unfold cleanS
    by_cases hs : inSession ts
    · have hs' := hs
      unfold inSession sessionStartSecs sessionEndSecs at hs'
      rw [if_pos hs]
      cases o <;> cases c <;> cases h <;> cases l <;> simp_all
    · have hs' := hs
      unfold inSession sessionStartSecs sessionEndSecs at hs'
      rw [if_neg hs]
      simp only [Option.isSome_none, Bool.false_eq_true, false_iff]
      intro hcontra
      exact hs' ⟨hcontra.1, hcontra.2.1⟩
  · intro r
    obtain ⟨sp, ct, ed, ts, o, c, h, l, v⟩ := r
    unfold cleanO
    by_cases hs : inSession ts
    · have hs' := hs
      unfold inSession sessionStartSecs sessionEndSecs at hs'
      rw [if_pos hs]
      cases o <;> cases c <;> cases h <;> cases l <;> simp_all
    · have hs' := hs
      unfold inSession sessionStartSecs sessionEndSecs at hs'
      rw [if_neg hs]
      simp only [Option.isSome_none, Bool.false_eq_true, false_iff]
      intro hcontra
      exact hs' ⟨hcontra.1, hcontra.2.1⟩
  · intro src tf
    unfold stockResample
    rw [filterMap_filter_isSome]
  · intro src tf
    unfold optionResample
    rw [filterMap_filter_isSome]

/-- C5 witness: the boundary row at 15:59:00 with non-NULL fields passes
the WHERE stage. -/
theorem claim_C5_witness :
    (cleanS ⟨⟨0, 57540⟩, some 1, some 2, some 3, some 0, 4⟩).isSome = true :=
  (claim_C5.1 ⟨⟨0, 57540⟩, some 1, some 2, some 3, some 0, 4⟩).mpr
    (by refine ⟨by decide, by decide, ?_, ?_, ?_, ?_⟩ <;> decide)

/-- C6 counterexample: two textual timestamps for the same local instant
that differ only in the `'T'` separator and the presence of a timezone
offset suffix — here the negative offset `-05:00` — produce DIFFERENT
canonical keys, because `normalize_dt` only strips an offset introduced
by `'+'` (merge.py line 171): the two rows are NOT recognized as a
duplicate pair, contrary to the claim. -/
theorem claim_C6_counterexample :
    rowKey ⟨450, "call".toList, "2026-01-16 00:00:00".toList,
            "2026-01-02T09:31:00-05:00".toList⟩
    ≠ rowKey ⟨450, "call".toList, "2026-01-16 00:00:00".toList,
              "2026-01-02 09:31:00".toList⟩ := by decide

/-- C6 (amended): for a trimmed base representation `s` containing no
`'T'`, no `'.'` and no `'+'`, key canonicalization maps to `s` itself:
the plain form; the form with a sub-second fraction (and anything after
it, including an offset of either sign); the form with a `'+'`-prefixed
offset suffix; the `'T'`-separated form; and any combination of the
three.  A `'-'`-prefixed offset suffix without a preceding fraction is
NOT dropped (see the counterexample), so only these variants normalize
identically. -/
theorem claim_C6_amended (s : PyStr) (hT : 'T' ∉ s) (hDot : '.' ∉ s)
    (hPlus : '+' ∉ s) (hTrim : pyStrip s = s) :
    normalize_dt (some s) = s
    ∧ (∀ f, normalize_dt (some (s ++ '.' :: f)) = s)
    ∧ (∀ z, normalize_dt (some (s ++ '+' :: z)) = s)
    ∧ normalize_dt (some (pyReplaceChar ' ' 'T' s)) = s
    ∧ (∀ f z, normalize_dt
        (some (pyReplaceChar ' ' 'T' s ++ '.' :: (f ++ '+' :: z))) = s) := by
  refine ⟨?_, ?_, ?_, ?_, ?_⟩
  · simp only [normalize_dt]
    rw [pyReplaceChar_eq_self hT, pySplitHead_eq_self hDot,
      pySplitHead_eq_self hPlus, hTrim]
  · intro f
    simp only [normalize_dt]
    unfold pyReplaceChar
    rw [List.map_append]
    have h1 : pyReplaceChar 'T' ' ' s = s := pyReplaceChar_eq_self hT
    unfold pyReplaceChar at h1
    rw [h1]
    have h2 : List.map (fun c => if c = 'T' then ' ' else c) ('.' :: f)
        = '.' :: List.map (fun c => if c = 'T' then ' ' else c) f := by
      rw [List.map_cons, if_neg (by decide)]
    rw [h2, pySplitHead_append_sep hDot, pySplitHead_eq_self hPlus, hTrim]
  · intro z
    simp only [normalize_dt]
    unfold pyReplaceChar
    rw [List.map_append]
    have h1 : pyReplaceChar 'T' ' ' s = s := pyReplaceChar_eq_self hT
    unfold pyReplaceChar at h1
    rw [h1]
    have h2 : List.map (fun c => if c = 'T' then ' ' else c) ('+' :: z)
        = '+' :: List.map (fun c => if c = 'T' then ' ' else c) z := by
      rw [List.map_cons, if_neg (by decide)]
    rw [h2, pySplitHead_append hDot]
    have h3 : pySplitHead '.'
        ('+' :: List.map (fun c => if c = 'T' then ' ' else c) z)
        = '+' :: pySplitHead '.'
            (List.map (fun c => if c = 'T' then ' ' else c) z) := by
      unfold pySplitHead
      rw [List.takeWhile_cons, if_pos (by decide)]
    rw [h3, pySplitHead_append_sep hPlus, hTrim]
  · simp only [normalize_dt]
    rw [pyReplaceChar_inv hT, pySplitHead_eq_self hDot,
      pySplitHead_eq_self hPlus, hTrim]
  · intro f z
    simp only [normalize_dt]
    have h1 : pyReplaceChar 'T' ' '
        (pyReplaceChar ' ' 'T' s ++ '.' :: (f ++ '+' :: z))
        = s ++ '.' :: pyReplaceChar 'T' ' ' (f ++ '+' :: z) := by
      unfold pyReplaceChar
      rw [List.map_append]
      have hinv := pyReplaceChar_inv hT
      unfold pyReplaceChar at hinv
      rw [hinv, List.map_cons, if_neg (by decide)]
    rw [h1, pySplitHead_append_sep hDot, pySplitHead_eq_self hPlus, hTrim]

/-- C6 witness: the amended normalization at the concrete spec scenario —
the `'+'`-offset form and the `'T'`-plus-fraction-plus-offset form of
`2026-01-02 09:31:00` both normalize to the plain form. -/
theorem claim_C6_witness :
    normalize_dt (some ("2026-01-02 09:31:00".toList ++ '+' ::
        "05:00".toList)) = "2026-01-02 09:31:00".toList
    ∧ normalize_dt (some (pyReplaceChar ' ' 'T'
        ("2026-01-02 09:31:00".toList) ++ '.' ::
        ("123".toList ++ '+' :: "05:00".toList)))
      = "2026-01-02 09:31:00".toList :=
  ⟨(claim_C6_amended ("2026-01-02 09:31:00".toList) (by decide) (by decide)
      (by decide) (by decide)).2.2.1 ("05:00".toList),
   (claim_C6_amended ("2026-01-02 09:31:00".toList) (by decide) (by decide)
      (by decide) (by decide)).2.2.2.2 ("123".toList) ("05:00".toList)⟩

theorem validateFile_fileLevel (schema table f : PyStr) (e : MergeReject)
    (he : validateFile schema table f = some e) : fileLevelReject e := by
  unfold validateFile at he
  rcases hp : parse_filename f with _ | p <;> rw [hp] at he
  · cases he
    trivial
  · repeat' split at he
    all_goals first | (cases he; trivial) | cases he

theorem validateFiles_fileLevel (schema table : PyStr) :
    ∀ (files : List PyStr) (e : MergeReject),
      validateFiles schema table files = some e → fileLevelReject e
  | [], e, he => by cases he
  | f :: rest, e, he => by
    unfold validateFiles at he
    by_cases hf : f = []
    · rw [if_pos hf] at he
      exact validateFiles_fileLevel schema table rest e he
    · rw [if_neg hf] at he
      cases hv : validateFile schema table f with
      | none =>
        rw [hv] at he
        exact validateFiles_fileLevel schema table rest e he
      | some e1 =>
        rw [hv] at he
        cases he
        exact validateFile_fileLevel schema table f _ hv

/-- C9 (amended): in the merge route's validation phase, the
missing-field, empty-file-list, and unknown-destination-table rejections
happen before any state change (first conjunct); but a rejection raised
by the per-file validation loop — in particular a filename/destination
mismatch — happens only AFTER `create_base_table` has run, so when the
destination base table was absent, it has been created even though the
request is rejected before any row processing; that create is the only
state change of the phase (second conjunct). -/
theorem claim_C9_amended (req : MergeRequest) (tables : List PyStr) :
    (∀ e, (mergeValidatePhase req tables).1 = .error e →
      ¬ fileLevelReject e → (mergeValidatePhase req tables).2 = tables)
    ∧ (∀ e, (mergeValidatePhase req tables).1 = .error e →
        fileLevelReject e →
        ∃ tbl, req.table = some tbl ∧ tbl ∈ BASE_TABLES ∧
          (mergeValidatePhase req tables).2 = create_base_table tables tbl)
    := by
  unfold mergeValidatePhase
  split
  · constructor
    · intro e _ _
      rfl
    · intro e he hf
      cases he
      exact absurd hf (fun hc => hc)
  · split
    · next schema table heqs heqt =>
      split
      · constructor
        · intro e _ _
          rfl
        · intro e he hf
          cases he
          exact absurd hf (fun hc => hc)
      · split
        · constructor
          · intro e _ _
            rfl
          · intro e he hf
            cases he
            exact absurd hf (fun hc => hc)
        · next h3 =>
          rw [not_not] at h3
          split
          · next e1 hv =>
            have hfl := validateFiles_fileLevel schema table req.files e1 hv
            constructor <;> intro e he hf <;> cases he
            · exact absurd hfl hf
            · exact ⟨table, heqt, h3, rfl⟩
          · constructor <;> intro e he hf <;> cases he
    · constructor
      · intro e _ _
        rfl
      · intro e he hf
        cases he
        exact absurd hf (fun hc => hc)

/-- C9 counterexample: a mismatched upload (an option CSV selected against
the stock table `ib_stock_1min`) is rejected with a 400, yet — the table
being absent beforehand — the validation phase has already created
`ib_stock_1min`: a state change happened before the rejection, contrary
to the claim. -/
theorem claim_C9_counterexample :
    mergeValidatePhase
      ⟨some ("qqq_data".toList), some ("ib_stock_1min".toList),
       ["ib_data_01152026_qqq_call_1min_2026-01-23.csv".toList]⟩ []
    = (.error (.optionFileForStockTable
        ("ib_data_01152026_qqq_call_1min_2026-01-23.csv".toList)),
       ["ib_stock_1min".toList]) := rfl

/-- C9 witness: the amended statement at concrete requests — a
missing-schema rejection leaves the table set unchanged, and the
mismatched-filename rejection leaves it equal to the
create-if-absent result. -/
theorem claim_C9_witness :
    (mergeValidatePhase
        ⟨none, some ("ib_stock_1min".toList), []⟩ []).2 = []
    ∧ ∃ tbl,
        (⟨some ("qqq_data".toList), some ("ib_stock_1min".toList),
          ["ib_data_01152026_qqq_call_1min_2026-01-23.csv".toList]⟩ :
            MergeRequest).table = some tbl
        ∧ tbl ∈ BASE_TABLES
        ∧ (mergeValidatePhase
            ⟨some ("qqq_data".toList), some ("ib_stock_1min".toList),
             ["ib_data_01152026_qqq_call_1min_2026-01-23.csv".toList]⟩
            []).2 = create_base_table [] tbl :=
  ⟨(claim_C9_amended ⟨none, some ("ib_stock_1min".toList), []⟩ []).1
      .missingSchemaTable rfl (fun hc => hc),
   (claim_C9_amended
      ⟨some ("qqq_data".toList), some ("ib_stock_1min".toList),
       ["ib_data_01152026_qqq_call_1min_2026-01-23.csv".toList]⟩ []).2
      (.optionFileForStockTable
        ("ib_data_01152026_qqq_call_1min_2026-01-23.csv".toList))
      rfl trivial⟩

/-- With pairwise-distinct, valid timestamps, the row with the minimal
`CONCAT(DATE_FORMAT(ts), '|', value)` string is exactly the row at the
head of `ORDER BY ts` — the earliest-timestamp row. -/
theorem concatMin_eq_tsMin {α : Type} (ts : α → DT) (val : α → Int)
    (g : List α) (hne : g ≠ []) (hnd : (g.map ts).Nodup)
    (hval : ∀ r ∈ g, (ts r).valid) :
    ∃ m ∈ g, (∀ x ∈ g, dtLe (ts m) (ts x)) ∧
      (orderByTsAsc ts g).head? = some m ∧
      concatMinVal ts val g = some (val m) := by
  obtain ⟨m, hm1, hm2, hm3⟩ := orderByTsAsc_head ts g hne
  obtain ⟨m2, hmem2, heq2, hmin2⟩ := concatMinRow_spec ts val g hne
  have hEq : m2 = m := by
    rcases eq_or_ne m2 m with h | h
    · exact h
    · exfalso
      have hts : ts m ≠ ts m2 := by
        intro hts
        exact h (List.inj_on_of_nodup_map hnd hmem2 hm2 hts.symm)
      have hlt : dtLt (ts m) (ts m2) := dtLt_of_ne_of_le hts (hm3 m2 hmem2)
      have hcode : dtCode (ts m) < dtCode (ts m2) :=
        (dtCode_lt_iff (hval m hm2) (hval m2 hmem2)).mpr hlt
      have := hmin2 m hm2
      omega
  refine ⟨m, hm2, hm3, hm1, ?_⟩
  unfold concatMinVal
  rw [heq2, hEq]
  rfl

/-- Dual of `concatMin_eq_tsMin`: the maximal concatenated string belongs
to the latest-timestamp row, the head of `ORDER BY ts DESC`. -/
theorem concatMax_eq_tsMax {α : Type} (ts : α → DT) (val : α → Int)
    (g : List α) (hne : g ≠ []) (hnd : (g.map ts).Nodup)
    (hval : ∀ r ∈ g, (ts r).valid) :
    ∃ m ∈ g, (∀ x ∈ g, dtLe (ts x) (ts m)) ∧
      (orderByTsDesc ts g).head? = some m ∧
      concatMaxVal ts val g = some (val m) := by
  obtain ⟨m, hm1, hm2, hm3⟩ := orderByTsDesc_head ts g hne
  obtain ⟨m2, hmem2, heq2, hmax2⟩ := concatMaxRow_spec ts val g hne
  have hEq : m2 = m := by
    rcases eq_or_ne m2 m with h | h
    · exact h
    · exfalso
      have hts : ts m2 ≠ ts m := by
        intro hts
        exact h (List.inj_on_of_nodup_map hnd hmem2 hm2 hts)
      have hlt : dtLt (ts m2) (ts m) := dtLt_of_ne_of_le hts (hm3 m2 hmem2)
      have hcode : dtCode (ts m2) < dtCode (ts m) :=
        (dtCode_lt_iff (hval m2 hmem2) (hval m hm2)).mpr hlt
      have := hmax2 m hm2
      omega
  refine ⟨m, hm2, hm3, hm1, ?_⟩
  unfold concatMaxVal
  rw [heq2, hEq]
  rfl

/-- C3: for every non-empty bucket group, the output candle's Open is the
Open of the earliest-timestamp row, Close the Close of the
latest-timestamp row, High/Low the max/min over the group, Volume the
sum over the group — for the option-path aggregation (first conjunct) and
for the stock-path aggregation (second conjunct; its MIN/MAX-on-
concatenation Open/Close selection additionally relies on the source
table's primary key making timestamps within a group distinct, and on
groups containing only in-session rows, both guaranteed upstream); and
for a single-row group the candle reproduces that row's values (last two
conjuncts). -/
theorem claim_C3 :
    (∀ (k : OKey) (g : List CORow), g ≠ [] →
      ∃ rmin ∈ g, ∃ rmax ∈ g,
        (∀ x ∈ g, dtLe rmin.Timestamp x.Timestamp) ∧
        (∀ x ∈ g, dtLe x.Timestamp rmax.Timestamp) ∧
        (optionAggregate k g).Open = some rmin.Open ∧
        (optionAggregate k g).Close = some rmax.Close ∧
        (∃ hi, (optionAggregate k g).High = some hi ∧
          hi ∈ g.map (fun r => r.High) ∧ ∀ x ∈ g, x.High ≤ hi) ∧
        (∃ lo, (optionAggregate k g).Low = some lo ∧
          lo ∈ g.map (fun r => r.Low) ∧ ∀ x ∈ g, lo ≤ x.Low) ∧
        (optionAggregate k g).Volume = (g.map (fun r => r.Volume)).sum)
    ∧
    (∀ (k : DT) (g : List CSRow), g ≠ [] →
      (g.map (fun r => r.Timestamp)).Nodup →
      (∀ r ∈ g, inSession r.Timestamp) →
      ∃ rmin ∈ g, ∃ rmax ∈ g,
        (∀ x ∈ g, dtLe rmin.Timestamp x.Timestamp) ∧
        (∀ x ∈ g, dtLe x.Timestamp rmax.Timestamp) ∧
        (stockAggregate k g).Open = some rmin.Open ∧
        (stockAggregate k g).Close = some rmax.Close ∧
        (∃ hi, (stockAggregate k g).High = some hi ∧
          hi ∈ g.map (fun r => r.High) ∧ ∀ x ∈ g, x.High ≤ hi) ∧
        (∃ lo, (stockAggregate k g).Low = some lo ∧
          lo ∈ g.map (fun r => r.Low) ∧ ∀ x ∈ g, lo ≤ x.Low) ∧
        (stockAggregate k g).Volume = (g.map (fun r => r.Volume)).sum)
    ∧
    (∀ (k : OKey) (r : CORow),
      optionAggregate k [r] =
        ⟨k.1, k.2.1, k.2.2.1, k.2.2.2, some r.Open, some r.Close,
         some r.High, some r.Low, r.Volume⟩)
    ∧
    (∀ (k : DT) (r : CSRow),
      stockAggregate k [r] =
        ⟨k, some r.Open, some r.Close, some r.High, some r.Low, r.Volume⟩)
    := by
  refine ⟨?_, ?_, ?_, ?_⟩
  · intro k g hne
    obtain ⟨m, hm1, hm2, hm3⟩ :=
      orderByTsAsc_head (fun r : CORow => r.Timestamp) g hne
    obtain ⟨M, hM1, hM2, hM3⟩ :=
      orderByTsDesc_head (fun r : CORow => r.Timestamp) g hne
    have hmape : g.map (fun r : CORow => r.High) ≠ [] := by
      intro hmap
      exact hne (List.map_eq_nil_iff.mp hmap)
    have hmape2 : g.map (fun r : CORow => r.Low) ≠ [] := by
      intro hmap
      exact hne (List.map_eq_nil_iff.mp hmap)
    obtain ⟨hi, hh1, hh2, hh3⟩ := sqlMAX_spec _ hmape
    obtain ⟨lo, hl1, hl2, hl3⟩ := sqlMIN_spec _ hmape2
    refine ⟨m, hm2, M, hM2, hm3, hM3, ?_, ?_, ⟨hi, ?_, hh2, ?_⟩,
      ⟨lo, ?_, hl2, ?_⟩, ?_⟩
    · show gcFirstAsc (fun r => r.Timestamp) (fun r => r.Open) g
        = some m.Open
      unfold gcFirstAsc
      rw [hm1]
      rfl
    · show gcFirstDesc (fun r => r.Timestamp) (fun r => r.Close) g
        = some M.Close
      unfold gcFirstDesc
      rw [hM1]
      rfl
    · exact hh1
    · intro x hx
      exact hh3 _ (List.mem_map.mpr ⟨x, hx, rfl⟩)
    · exact hl1
    · intro x hx
      exact hl3 _ (List.mem_map.mpr ⟨x, hx, rfl⟩)
    · exact sqlSUM_eq_sum _
  · intro k g hne hnd hsess
    have hval : ∀ r ∈ g, ((fun r : CSRow => r.Timestamp) r).valid :=
      fun r hr => inSession_valid (hsess r hr)
    obtain ⟨m, hm2, hm3, _, hmv⟩ := concatMin_eq_tsMin
      (fun r : CSRow => r.Timestamp) (fun r => r.Open) g hne hnd hval
    obtain ⟨M, hM2, hM3, _, hMv⟩ := concatMax_eq_tsMax
      (fun r : CSRow => r.Timestamp) (fun r => r.Close) g hne hnd hval
    have hmape : g.map (fun r : CSRow => r.High) ≠ [] := by
      intro hmap
      exact hne (List.map_eq_nil_iff.mp hmap)
    have hmape2 : g.map (fun r : CSRow => r.Low) ≠ [] := by
      intro hmap
      exact hne (List.map_eq_nil_iff.mp hmap)
    obtain ⟨hi, hh1, hh2, hh3⟩ := sqlMAX_spec _ hmape
    obtain ⟨lo, hl1, hl2, hl3⟩ := sqlMIN_spec _ hmape2
    refine ⟨m, hm2, M, hM2, hm3, hM3, hmv, hMv, ⟨hi, ?_, hh2, ?_⟩,
      ⟨lo, ?_, hl2, ?_⟩, ?_⟩
    · exact hh1
    · intro x hx
      exact hh3 _ (List.mem_map.mpr ⟨x, hx, rfl⟩)
    · exact hl1
    · intro x hx
      exact hl3 _ (List.mem_map.mpr ⟨x, hx, rfl⟩)
    · exact sqlSUM_eq_sum _
  · intro k r
    unfold optionAggregate
    rw [OCandle.mk.injEq]
    refine ⟨rfl, rfl, rfl, rfl, rfl, rfl, rfl, rfl, ?_⟩
    show sqlSUM [r.Volume] = r.Volume
    unfold sqlSUM
    simp
  · intro k r
    unfold stockAggregate
    rw [SCandle.mk.injEq]
    refine ⟨rfl, rfl, rfl, rfl, rfl, ?_⟩
    show sqlSUM [r.Volume] = r.Volume
    unfold sqlSUM
    simp

/-- C3 witness: the stock-path conjunct at the spec's bucketing scenario —
the 09:30/09:31/09:32 group (timeframe 3) with distinct in-session
timestamps. -/
theorem claim_C3_witness :
    ∃ rmin ∈ ([⟨⟨0, 34200⟩, 10, 11, 12, 9, 5⟩,
               ⟨⟨0, 34260⟩, 20, 21, 22, 8, 6⟩,
               ⟨⟨0, 34320⟩, 30, 31, 32, 7, 7⟩] : List CSRow),
    ∃ rmax ∈ ([⟨⟨0, 34200⟩, 10, 11, 12, 9, 5⟩,
               ⟨⟨0, 34260⟩, 20, 21, 22, 8, 6⟩,
               ⟨⟨0, 34320⟩, 30, 31, 32, 7, 7⟩] : List CSRow),
      (∀ x ∈ ([⟨⟨0, 34200⟩, 10, 11, 12, 9, 5⟩,
               ⟨⟨0, 34260⟩, 20, 21, 22, 8, 6⟩,
               ⟨⟨0, 34320⟩, 30, 31, 32, 7, 7⟩] : List CSRow),
        dtLe rmin.Timestamp x.Timestamp) ∧
      (∀ x ∈ ([⟨⟨0, 34200⟩, 10, 11, 12, 9, 5⟩,
               ⟨⟨0, 34260⟩, 20, 21, 22, 8, 6⟩,
               ⟨⟨0, 34320⟩, 30, 31, 32, 7, 7⟩] : List CSRow),
        dtLe x.Timestamp rmax.Timestamp) ∧
      (stockAggregate ⟨0, 34200⟩
          [⟨⟨0, 34200⟩, 10, 11, 12, 9, 5⟩, ⟨⟨0, 34260⟩, 20, 21, 22, 8, 6⟩,
           ⟨⟨0, 34320⟩, 30, 31, 32, 7, 7⟩]).Open = some rmin.Open ∧
      (stockAggregate ⟨0, 34200⟩
          [⟨⟨0, 34200⟩, 10, 11, 12, 9, 5⟩, ⟨⟨0, 34260⟩, 20, 21, 22, 8, 6⟩,
           ⟨⟨0, 34320⟩, 30, 31, 32, 7, 7⟩]).Close = some rmax.Close ∧
      (∃ hi, (stockAggregate ⟨0, 34200⟩
          [⟨⟨0, 34200⟩, 10, 11, 12, 9, 5⟩, ⟨⟨0, 34260⟩, 20, 21, 22, 8, 6⟩,
           ⟨⟨0, 34320⟩, 30, 31, 32, 7, 7⟩]).High = some hi ∧
        hi ∈ ([⟨⟨0, 34200⟩, 10, 11, 12, 9, 5⟩,
               ⟨⟨0, 34260⟩, 20, 21, 22, 8, 6⟩,
               ⟨⟨0, 34320⟩, 30, 31, 32, 7, 7⟩] : List CSRow).map
            (fun r => r.High) ∧
        ∀ x ∈ ([⟨⟨0, 34200⟩, 10, 11, 12, 9, 5⟩,
                ⟨⟨0, 34260⟩, 20, 21, 22, 8, 6⟩,
                ⟨⟨0, 34320⟩, 30, 31, 32, 7, 7⟩] : List CSRow),
          x.High ≤ hi) ∧
      (∃ lo, (stockAggregate ⟨0, 34200⟩
          [⟨⟨0, 34200⟩, 10, 11, 12, 9, 5⟩, ⟨⟨0, 34260⟩, 20, 21, 22, 8, 6⟩,
           ⟨⟨0, 34320⟩, 30, 31, 32, 7, 7⟩]).Low = some lo ∧
        lo ∈ ([⟨⟨0, 34200⟩, 10, 11, 12, 9, 5⟩,
               ⟨⟨0, 34260⟩, 20, 21, 22, 8, 6⟩,
               ⟨⟨0, 34320⟩, 30, 31, 32, 7, 7⟩] : List CSRow).map
            (fun r => r.Low) ∧
        ∀ x ∈ ([⟨⟨0, 34200⟩, 10, 11, 12, 9, 5⟩,
                ⟨⟨0, 34260⟩, 20, 21, 22, 8, 6⟩,
                ⟨⟨0, 34320⟩, 30, 31, 32, 7, 7⟩] : List CSRow),
          lo ≤ x.Low) ∧
      (stockAggregate ⟨0, 34200⟩
          [⟨⟨0, 34200⟩, 10, 11, 12, 9, 5⟩, ⟨⟨0, 34260⟩, 20, 21, 22, 8, 6⟩,
           ⟨⟨0, 34320⟩, 30, 31, 32, 7, 7⟩]).Volume
        = (([⟨⟨0, 34200⟩, 10, 11, 12, 9, 5⟩,
             ⟨⟨0, 34260⟩, 20, 21, 22, 8, 6⟩,
             ⟨⟨0, 34320⟩, 30, 31, 32, 7, 7⟩] : List CSRow).map
            (fun r => r.Volume)).sum :=
  claim_C3.2.1 ⟨0, 34200⟩
    [⟨⟨0, 34200⟩, 10, 11, 12, 9, 5⟩, ⟨⟨0, 34260⟩, 20, 21, 22, 8, 6⟩,
     ⟨⟨0, 34320⟩, 30, 31, 32, 7, 7⟩]
    (by decide) (by decide) (by decide)

/-- C10: on every bucket group with pairwise-distinct (in-session) row
timestamps, the stock-path Open/Close computation — string MIN/MAX over
`CONCAT(DATE_FORMAT(ts, '%Y%m%d%H%i%s'), '|', value)` followed by
`SUBSTRING_INDEX` — and the option-path computation — `SUBSTRING_INDEX`
of `GROUP_CONCAT(value ORDER BY ts)` — select the same rows: both return
the Open of the earliest-timestamp row and the Close of the
latest-timestamp row. -/
theorem claim_C10 (g : List CSRow) (hne : g ≠ [])
    (hnd : (g.map (fun r => r.Timestamp)).Nodup)
    (hsess : ∀ r ∈ g, inSession r.Timestamp) :
    ∃ rmin ∈ g, ∃ rmax ∈ g,
      (∀ x ∈ g, dtLe rmin.Timestamp x.Timestamp) ∧
      (∀ x ∈ g, dtLe x.Timestamp rmax.Timestamp) ∧
      concatMinVal (fun r => r.Timestamp) (fun r => r.Open) g
        = some rmin.Open ∧
      gcFirstAsc (fun r => r.Timestamp) (fun r => r.Open) g
        = some rmin.Open ∧
      concatMaxVal (fun r => r.Timestamp) (fun r => r.Close) g
        = some rmax.Close ∧
      gcFirstDesc (fun r => r.Timestamp) (fun r => r.Close) g
        = some rmax.Close := by
  have hval : ∀ r ∈ g, ((fun r : CSRow => r.Timestamp) r).valid :=
    fun r hr => inSession_valid (hsess r hr)
  obtain ⟨m, hm2, hm3, hhead, hmv⟩ := concatMin_eq_tsMin
    (fun r : CSRow => r.Timestamp) (fun r => r.Open) g hne hnd hval
  obtain ⟨M, hM2, hM3, hHead, hMv⟩ := concatMax_eq_tsMax
    (fun r : CSRow => r.Timestamp) (fun r => r.Close) g hne hnd hval
  refine ⟨m, hm2, M, hM2, hm3, hM3, hmv, ?_, hMv, ?_⟩
  · unfold gcFirstAsc
    rw [hhead]
    rfl
  · unfold gcFirstDesc
    rw [hHead]
    rfl

/-- C10 witness: the two computations agree on a concrete two-row group
(09:30 and 09:31): both pick Open 10 of the earlier row and Close 21 of
the later row. -/
theorem claim_C10_witness :
    ∃ rmin ∈ ([⟨⟨0, 34200⟩, 10, 11, 12, 9, 5⟩,
               ⟨⟨0, 34260⟩, 20, 21, 22, 8, 6⟩] : List CSRow),
    ∃ rmax ∈ ([⟨⟨0, 34200⟩, 10, 11, 12, 9, 5⟩,
               ⟨⟨0, 34260⟩, 20, 21, 22, 8, 6⟩] : List CSRow),
      (∀ x ∈ ([⟨⟨0, 34200⟩, 10, 11, 12, 9, 5⟩,
               ⟨⟨0, 34260⟩, 20, 21, 22, 8, 6⟩] : List CSRow),
        dtLe rmin.Timestamp x.Timestamp) ∧
      (∀ x ∈ ([⟨⟨0, 34200⟩, 10, 11, 12, 9, 5⟩,
               ⟨⟨0, 34260⟩, 20, 21, 22, 8, 6⟩] : List CSRow),
        dtLe x.Timestamp rmax.Timestamp) ∧
      concatMinVal (fun r : CSRow => r.Timestamp) (fun r => r.Open)
          [⟨⟨0, 34200⟩, 10, 11, 12, 9, 5⟩, ⟨⟨0, 34260⟩, 20, 21, 22, 8, 6⟩]
        = some rmin.Open ∧
      gcFirstAsc (fun r : CSRow => r.Timestamp) (fun r => r.Open)
          [⟨⟨0, 34200⟩, 10, 11, 12, 9, 5⟩, ⟨⟨0, 34260⟩, 20, 21, 22, 8, 6⟩]
        = some rmin.Open ∧
      concatMaxVal (fun r : CSRow => r.Timestamp) (fun r => r.Close)
          [⟨⟨0, 34200⟩, 10, 11, 12, 9, 5⟩, ⟨⟨0, 34260⟩, 20, 21, 22, 8, 6⟩]
        = some rmax.Close ∧
      gcFirstDesc (fun r : CSRow => r.Timestamp) (fun r => r.Close)
          [⟨⟨0, 34200⟩, 10, 11, 12, 9, 5⟩, ⟨⟨0, 34260⟩, 20, 21, 22, 8, 6⟩]
        = some rmax.Close :=
  claim_C10
    [⟨⟨0, 34200⟩, 10, 11, 12, 9, 5⟩, ⟨⟨0, 34260⟩, 20, 21, 22, 8, 6⟩]
    (by decide) (by decide) (by decide)

end SQLPort
